import Mathlib

/-!
Verification development for the Bielefeld events aggregation pipeline.

Shallow embedding of:
* `src/scrapers/base.py`     — `GERMAN_MONTHS`, the three date regexes and
  `parse_german_date`;
* `src/build/generate.py`    — `_normalize_title` and `deduplicate_events`;
* `src/scrapers/database.py` — `init_db` schema, `upsert_events`,
  `get_all_events`;
* `src/scrapers/nw_events.py`— `RE_INFO_BOX` and `_parse_info_box`;
* `src/scrapers/stereo.py` / `src/scrapers/bunker_ulmenwall.py` —
  `_extract_from_jsonld` with / without trailing-comma sanitization.

Python strings are modelled as `List Char`; `datetime` as a record of
numeric fields validated like CPython's constructor; regexes are compiled
by hand into deterministic matchers that implement the exact backtracking
behaviour of the original patterns on the character classes involved.
-/

/-! ### Character classes (ASCII plus the German letters the sources use) -/

/-- `\d` of Python `re`. -/
def isDigitC (c : Char) : Bool := 48 ≤ c.toNat && c.toNat ≤ 57

/-- Numeric value of a digit character. -/
def digitVal (c : Char) : Nat := c.toNat - 48

/-- The digit character for `k % 10`; total by reducing mod 10. -/
def dChar (k : Nat) : Char := Char.ofNat (48 + k % 10)

/-- `\s` of Python `re` (ASCII fragment). -/
def isSpaceC (c : Char) : Bool :=
  c = ' ' || c = '\t' || c = '\n' || c = '\r' || c = '\x0b' || c = '\x0c'

/-- `\w` of Python `re`, restricted to ASCII plus German letters. -/
def isWordC (c : Char) : Bool :=
  isDigitC c || ('a' ≤ c && c ≤ 'z') || ('A' ≤ c && c ≤ 'Z') || c = '_' ||
  c = 'ä' || c = 'ö' || c = 'ü' || c = 'ß' || c = 'Ä' || c = 'Ö' || c = 'Ü'

/-- Python `str.lower`, restricted to ASCII plus German capitals. -/
def lowerC (c : Char) : Char :=
  if 65 ≤ c.toNat && c.toNat ≤ 90 then Char.ofNat (c.toNat + 32)
  else if c = 'Ä' then 'ä' else if c = 'Ö' then 'ö' else if c = 'Ü' then 'ü'
  else c

/-- Python `str.strip` on the leading side. -/
def stripLead (cs : List Char) : List Char := cs.dropWhile isSpaceC

/-- Python `str.strip` on both sides. -/
def stripWs (cs : List Char) : List Char :=
  ((stripLead cs).reverse.dropWhile isSpaceC).reverse

/-! ### Python `datetime` -/

/-- A CPython `datetime.datetime` value (microsecond granularity). -/
structure PyDT where
  year : Nat
  month : Nat
  day : Nat
  hour : Nat
  minute : Nat
  second : Nat
  micro : Nat
deriving DecidableEq, Repr

/-- Gregorian leap-year test, as in CPython's `datetime` module. -/
def isLeap (y : Nat) : Bool := (y % 4 = 0 && y % 100 ≠ 0) || y % 400 = 0

/-- Days in a month of a given year. -/
def daysInMonth (y mo : Nat) : Nat :=
  if mo = 2 then (if isLeap y then 29 else 28)
  else if mo = 4 || mo = 6 || mo = 9 || mo = 11 then 30
  else 31

/-- The validation performed by `datetime(year, month, day, hour, minute)`. -/
def validDT (y mo d h mi : Nat) : Bool :=
  1 ≤ y && y ≤ 9999 && 1 ≤ mo && mo ≤ 12 && 1 ≤ d && d ≤ daysInMonth y mo &&
  h ≤ 23 && mi ≤ 59

/-- `datetime(year, month, day, hour, minute)`: `some` on success, `none`
for the `ValueError` that the scrapers catch. -/
def mkDatetime (y mo d h mi : Nat) : Option PyDT :=
  if validDT y mo d h mi then some ⟨y, mo, d, h, mi, 0, 0⟩ else none

/-- Days before month `mo` in a non-leap year. -/
def daysBeforeMonth (mo : Nat) : Nat :=
  if mo ≤ 1 then 0 else if mo = 2 then 31 else if mo = 3 then 59
  else if mo = 4 then 90 else if mo = 5 then 120 else if mo = 6 then 151
  else if mo = 7 then 181 else if mo = 8 then 212 else if mo = 9 then 243
  else if mo = 10 then 273 else if mo = 11 then 304 else 334

/-- Proleptic Gregorian ordinal of a date (day 1 = 0001-01-01), as in
CPython's `datetime.toordinal`. -/
def toOrdinal (y mo d : Nat) : Nat :=
  365 * (y - 1) + (y - 1) / 4 + (y - 1) / 400 - (y - 1) / 100 +
    daysBeforeMonth mo + (if 2 < mo && isLeap y then 1 else 0) + d

/-- Microseconds in a day. -/
def dayUs : Int := 86400000000

/-- Total microseconds of a `datetime`; `datetime` comparison and
`timedelta` arithmetic are carried out on this number. -/
def toUs (dt : PyDT) : Int :=
  (toOrdinal dt.year dt.month dt.day : Int) * dayUs +
    ((dt.hour * 3600 + dt.minute * 60 + dt.second : Nat) : Int) * 1000000 +
    (dt.micro : Int)

/-! ### The three date regexes of `src/scrapers/base.py`

`RE_ISO_DATE`, `RE_NUMERIC_DATE` and `RE_GERMAN_DATE` are compiled into
deterministic matchers.  `re.search` semantics: the pattern is tried at
position 0, 1, … and the first matching position wins; within a position
the quantifiers' greedy/backtracking behaviour is hand-compiled (the
character classes involved make every choice point deterministic except
`(\d{1,2})sep`, which keeps its two-digit-first fallback). -/

/-- Read exactly `n` digit characters, accumulating their value. -/
def readExactDigits : Nat → Nat → List Char → Option (Nat × List Char)
  | 0, acc, cs => some (acc, cs)
  | n + 1, acc, c :: cs =>
      if isDigitC c then readExactDigits n (acc * 10 + digitVal c) cs else none
  | _ + 1, _, [] => none

/-- `(\d{1,2})` immediately followed by a separator accepted by `isSep`
(two-digit attempt first, then the one-digit backtrack, exactly as the
regex engine would). -/
def read12Sep (isSep : Char → Bool) : List Char → Option (Nat × List Char)
  | c1 :: c2 :: c3 :: r =>
      if isDigitC c1 && isDigitC c2 && isSep c3 then
        some (10 * digitVal c1 + digitVal c2, r)
      else if isDigitC c1 && isSep c2 then some (digitVal c1, c3 :: r)
      else none
  | [c1, c2] => if isDigitC c1 && isSep c2 then some (digitVal c1, []) else none
  | _ => none

/-- The separator class `\.` (a literal dot). -/
def isDotC (c : Char) : Bool := c = '.'

/-- The separator class `[:\.]`. -/
def isColonDotC (c : Char) : Bool := c = ':' || c = '.'

/-- The class `[,\s]`. -/
def isCommaSpaceC (c : Char) : Bool := c = ',' || isSpaceC c

/-- Optional time tail of `RE_ISO_DATE`:
`(?:[T\s](\d{2}):(\d{2})(?::(\d{2}))?)?` — the seconds group is never read
by `parse_german_date`, so only hour and minute are returned. -/
def isoTimeTail (cs : List Char) : Option (Nat × Nat) :=
  match cs with
  | c :: rest =>
      if c = 'T' || isSpaceC c then
        match readExactDigits 2 0 rest with
        | some (h, c2 :: r2) =>
            if c2 = ':' then
              match readExactDigits 2 0 r2 with
              | some (mi, _) => some (h, mi)
              | none => none
            else none
        | _ => none
      else none
  | [] => none

/-- `RE_ISO_DATE` tried at the current position; yields the five captured
numeric components (hour and minute defaulting to 0). -/
def matchISOAt (cs : List Char) : Option (Nat × Nat × Nat × Nat × Nat) :=
  match readExactDigits 4 0 cs with
  | some (y, c1 :: r2) =>
      if c1 = '-' then
        match readExactDigits 2 0 r2 with
        | some (mo, c2 :: r4) =>
            if c2 = '-' then
              match readExactDigits 2 0 r4 with
              | some (d, r5) =>
                  match isoTimeTail r5 with
                  | some (h, mi) => some (y, mo, d, h, mi)
                  | none => some (y, mo, d, 0, 0)
              | none => none
            else none
        | _ => none
      else none
  | _ => none

/-- `RE_ISO_DATE.search`. -/
def searchISO : List Char → Option (Nat × Nat × Nat × Nat × Nat)
  | [] => none
  | c :: cs =>
      match matchISOAt (c :: cs) with
      | some g => some g
      | none => searchISO cs

/-- Optional time tail of `RE_NUMERIC_DATE`: `(?:\s+(\d{1,2})[:\.](\d{2}))?`. -/
def numTimeTail (cs : List Char) : Option (Nat × Nat) :=
  match cs with
  | c :: rest =>
      if isSpaceC c then
        match read12Sep isColonDotC (rest.dropWhile isSpaceC) with
        | some (h, r2) =>
            match readExactDigits 2 0 r2 with
            | some (mi, _) => some (h, mi)
            | none => none
        | none => none
      else none
  | [] => none

/-- `RE_NUMERIC_DATE` tried at the current position: day, month, year,
hour, minute. -/
def matchNumericAt (cs : List Char) : Option (Nat × Nat × Nat × Nat × Nat) :=
  match read12Sep isDotC cs with
  | some (d, r1) =>
      match read12Sep isDotC r1 with
      | some (mo, r2) =>
          match readExactDigits 4 0 r2 with
          | some (y, r3) =>
              match numTimeTail r3 with
              | some (h, mi) => some (d, mo, y, h, mi)
              | none => some (d, mo, y, 0, 0)
          | none => none
      | none => none
  | none => none

/-- `RE_NUMERIC_DATE.search`. -/
def searchNumeric : List Char → Option (Nat × Nat × Nat × Nat × Nat)
  | [] => none
  | c :: cs =>
      match matchNumericAt (c :: cs) with
      | some g => some g
      | none => searchNumeric cs

/-- Optional time tail of `RE_GERMAN_DATE`:
`(?:[,\s]+(\d{1,2})[:\.](\d{2}))?` — the trailing `(?:\s*Uhr)?` captures
nothing and can never make the match fail, so it plays no role. -/
def germanTimeTail (cs : List Char) : Option (Nat × Nat) :=
  match cs with
  | c :: rest =>
      if isCommaSpaceC c then
        match read12Sep isColonDotC (rest.dropWhile isCommaSpaceC) with
        | some (h, r2) =>
            match readExactDigits 2 0 r2 with
            | some (mi, _) => some (h, mi)
            | none => none
        | none => none
      else none
  | [] => none

/-- Continuation of `RE_GERMAN_DATE` after the captured day and its dot:
`\s*(\w+)\s+(\d{4})(?:[,\s]+(\d{1,2})[:\.](\d{2}))?(?:\s*Uhr)?`.
(A shorter-than-maximal `\w+` capture is impossible: the following `\s+`
would start on a word character.) -/
def germanTail (d : Nat) (r1 : List Char) : Option (Nat × List Char × Nat × Nat × Nat) :=
  match (r1.dropWhile isSpaceC).takeWhile isWordC,
        (r1.dropWhile isSpaceC).dropWhile isWordC with
  | [], _ => none
  | w0 :: wtl, c :: r4 =>
      if isSpaceC c then
        match readExactDigits 4 0 (r4.dropWhile isSpaceC) with
        | some (y, r6) =>
            match germanTimeTail r6 with
            | some (h, mi) => some (d, w0 :: wtl, y, h, mi)
            | none => some (d, w0 :: wtl, y, 0, 0)
        | none => none
      else none
  | _ :: _, [] => none

/-- `RE_GERMAN_DATE` tried at the current position: day, the raw `\w+`
month word, year, hour, minute. -/
def matchGermanAt (cs : List Char) : Option (Nat × List Char × Nat × Nat × Nat) :=
  match read12Sep isDotC cs with
  | some (d, r1) => germanTail d r1
  | none => none

/-- `RE_GERMAN_DATE.search`. -/
def searchGerman : List Char → Option (Nat × List Char × Nat × Nat × Nat)
  | [] => none
  | c :: cs =>
      match matchGermanAt (c :: cs) with
      | some g => some g
      | none => searchGerman cs

/-- `GERMAN_MONTHS` from `src/scrapers/base.py`. -/
def GERMAN_MONTHS : List (List Char × Nat) :=
  [("januar".data, 1), ("jan".data, 1),
   ("februar".data, 2), ("feb".data, 2),
   ("märz".data, 3), ("maerz".data, 3), ("mär".data, 3),
   ("april".data, 4), ("apr".data, 4),
   ("mai".data, 5),
   ("juni".data, 6), ("jun".data, 6),
   ("juli".data, 7), ("jul".data, 7),
   ("august".data, 8), ("aug".data, 8),
   ("september".data, 9), ("sep".data, 9), ("sept".data, 9),
   ("oktober".data, 10), ("okt".data, 10),
   ("november".data, 11), ("nov".data, 11),
   ("dezember".data, 12), ("dez".data, 12)]

/-- `GERMAN_MONTHS.get(month_str)`. -/
def monthLookup (w : List Char) : Option Nat :=
  (GERMAN_MONTHS.find? (fun p => p.1 = w)).map (·.2)

/-- ISO strategy of `parse_german_date` (regex match, then `datetime`
construction with `ValueError` treated as failure). -/
def isoStrategy (t : List Char) : Option PyDT :=
  match searchISO t with
  | some (y, mo, d, h, mi) => mkDatetime y mo d h mi
  | none => none

/-- Numeric German strategy of `parse_german_date`. -/
def numericStrategy (t : List Char) : Option PyDT :=
  match searchNumeric t with
  | some (d, mo, y, h, mi) => mkDatetime y mo d h mi
  | none => none

/-- German month-name strategy of `parse_german_date` (month word is
lowercased and looked up; an unknown word fails the strategy). -/
def germanStrategy (t : List Char) : Option PyDT :=
  match searchGerman t with
  | some (d, w, y, h, mi) =>
      match monthLookup (w.map lowerC) with
      | some mo => mkDatetime y mo d h mi
      | none => none
  | none => none

/-- `parse_german_date` from `src/scrapers/base.py`: empty-text guard,
strip, then the three strategies in fixed priority order. -/
def parse_german_date (cs : List Char) : Option PyDT :=
  if cs.isEmpty then none
  else
    match isoStrategy (stripWs cs) with
    | some dt => some dt
    | none =>
        match numericStrategy (stripWs cs) with
        | some dt => some dt
        | none => germanStrategy (stripWs cs)

example : parse_german_date "2026-03-15T19:30:00".data = some ⟨2026, 3, 15, 19, 30, 0, 0⟩ := by decide
example : parse_german_date "25.04.2026 18:00".data = some ⟨2026, 4, 25, 18, 0, 0, 0⟩ := by decide
example : parse_german_date "15. März 2026, 19:30 Uhr".data = some ⟨2026, 3, 15, 19, 30, 0, 0⟩ := by decide
example : parse_german_date "31.02.2026".data = none := by decide
example : parse_german_date "".data = none := by decide

/-! ### Renderers for the supported textual styles (spec side of C3) -/

/-- Two-digit zero-padded decimal rendering. -/
def pad2 (n : Nat) : List Char := [dChar (n / 10), dChar n]

/-- Four-digit zero-padded decimal rendering. -/
def pad4 (n : Nat) : List Char :=
  [dChar (n / 1000), dChar (n / 100), dChar (n / 10), dChar n]

/-- Unpadded one-or-two-digit rendering (for `D.` and `H:MM`). -/
def num12 (n : Nat) : List Char := if n < 10 then [dChar n] else pad2 n

/-- `YYYY-MM-DDTHH:MM:SS`. -/
def renderISOFull (y mo d h mi s : Nat) : List Char :=
  pad4 y ++ '-' :: (pad2 mo ++ '-' :: (pad2 d ++ 'T' ::
    (pad2 h ++ ':' :: (pad2 mi ++ ':' :: pad2 s))))

/-- `YYYY-MM-DD`. -/
def renderISODate (y mo d : Nat) : List Char :=
  pad4 y ++ '-' :: (pad2 mo ++ '-' :: pad2 d)

/-- `DD.MM.YYYY HH:MM`. -/
def renderNumericFull (d mo y h mi : Nat) : List Char :=
  pad2 d ++ '.' :: (pad2 mo ++ '.' :: (pad4 y ++ ' ' ::
    (pad2 h ++ ':' :: pad2 mi)))

/-- `DD.MM.YYYY`. -/
def renderNumericDate (d mo y : Nat) : List Char :=
  pad2 d ++ '.' :: (pad2 mo ++ '.' :: pad4 y)

/-- `D. <Monatsname> YYYY, H:MM Uhr`. -/
def renderGermanFull (d : Nat) (name : List Char) (y h mi : Nat) : List Char :=
  num12 d ++ '.' :: ' ' :: (name ++ ' ' :: (pad4 y ++ ',' :: ' ' ::
    (num12 h ++ ':' :: (pad2 mi ++ ' ' :: 'U' :: 'h' :: ['r']))))

/-- `D. <Monatsname> YYYY`. -/
def renderGermanDate (d : Nat) (name : List Char) (y : Nat) : List Char :=
  num12 d ++ '.' :: ' ' :: (name ++ ' ' :: pad4 y)

/-! ### Digit-character lemmas -/

theorem isDigitC_dChar (k : Nat) : isDigitC (dChar k) = true := by
  obtain ⟨r, hr, hrk⟩ : ∃ r, r < 10 ∧ k % 10 = r :=
    ⟨k % 10, Nat.mod_lt _ (by omega), rfl⟩
  unfold dChar
  rw [hrk]
  interval_cases r <;> decide

theorem digitVal_dChar (k : Nat) : digitVal (dChar k) = k % 10 := by
  obtain ⟨r, hr, hrk⟩ : ∃ r, r < 10 ∧ k % 10 = r :=
    ⟨k % 10, Nat.mod_lt _ (by omega), rfl⟩
  unfold dChar
  rw [hrk]
  interval_cases r <;> decide

theorem isSpaceC_dChar (k : Nat) : isSpaceC (dChar k) = false := by
  obtain ⟨r, hr, hrk⟩ : ∃ r, r < 10 ∧ k % 10 = r :=
    ⟨k % 10, Nat.mod_lt _ (by omega), rfl⟩
  unfold dChar
  rw [hrk]
  interval_cases r <;> decide

theorem isWordC_dChar (k : Nat) : isWordC (dChar k) = true := by
  obtain ⟨r, hr, hrk⟩ : ∃ r, r < 10 ∧ k % 10 = r :=
    ⟨k % 10, Nat.mod_lt _ (by omega), rfl⟩
  unfold dChar
  rw [hrk]
  interval_cases r <;> decide

theorem dChar_ne (c : Char) (hc : isDigitC c = false) (k : Nat) :
    (dChar k = c) = False := by
  simp only [eq_iff_iff, iff_false]
  intro h
  rw [← h] at hc
  rw [isDigitC_dChar] at hc
  exact Bool.false_ne_true hc.symm

theorem isDotC_dChar (k : Nat) : isDotC (dChar k) = false := by
  obtain ⟨r, hr, hrk⟩ : ∃ r, r < 10 ∧ k % 10 = r :=
    ⟨k % 10, Nat.mod_lt _ (by omega), rfl⟩
  unfold dChar
  rw [hrk]
  interval_cases r <;> decide

theorem isColonDotC_dChar (k : Nat) : isColonDotC (dChar k) = false := by
  obtain ⟨r, hr, hrk⟩ : ∃ r, r < 10 ∧ k % 10 = r :=
    ⟨k % 10, Nat.mod_lt _ (by omega), rfl⟩
  unfold dChar
  rw [hrk]
  interval_cases r <;> decide

theorem isCommaSpaceC_dChar (k : Nat) : isCommaSpaceC (dChar k) = false := by
  obtain ⟨r, hr, hrk⟩ : ∃ r, r < 10 ∧ k % 10 = r :=
    ⟨k % 10, Nat.mod_lt _ (by omega), rfl⟩
  unfold dChar
  rw [hrk]
  interval_cases r <;> decide

/-! ### Evaluation lemmas for the digit readers on rendered digits -/

theorem readExact4_pad4 (y : Nat) (rest : List Char) :
    readExactDigits 4 0 (pad4 y ++ rest) = some (y % 10000, rest) := by
  simp [pad4, readExactDigits, isDigitC_dChar, digitVal_dChar]
  omega

theorem readExact2_pad2 (n : Nat) (rest : List Char) :
    readExactDigits 2 0 (pad2 n ++ rest) = some (n % 100, rest) := by
  simp [pad2, readExactDigits, isDigitC_dChar, digitVal_dChar]
  omega

theorem readExact4_pad4_nil (y : Nat) :
    readExactDigits 4 0 (pad4 y) = some (y % 10000, []) := by
  have h := readExact4_pad4 y []
  rwa [List.append_nil] at h

theorem readExact2_pad2_nil (n : Nat) :
    readExactDigits 2 0 (pad2 n) = some (n % 100, []) := by
  have h := readExact2_pad2 n []
  rwa [List.append_nil] at h

theorem read12Sep_pad2 (isSep : Char → Bool) (n : Nat) (s : Char)
    (rest : List Char) (hs : isSep s = true) :
    read12Sep isSep (pad2 n ++ s :: rest) = some (n % 100, rest) := by
  simp [pad2, read12Sep, isDigitC_dChar, digitVal_dChar, hs]
  omega

theorem read12Sep_num12 (isSep : Char → Bool) (n : Nat) (s : Char)
    (rest : List Char) (hn : n ≤ 99) (hd : isDigitC s = false)
    (hs : isSep s = true) :
    read12Sep isSep (num12 n ++ s :: rest) = some (n, rest) := by
  unfold num12
  by_cases h10 : n < 10
  · rw [if_pos h10]
    cases rest with
    | nil => simp [read12Sep, isDigitC_dChar, digitVal_dChar, hs]; omega
    | cons r0 r' =>
        simp [read12Sep, isDigitC_dChar, digitVal_dChar, hs, hd]
        omega
  · rw [if_neg h10]
    rw [read12Sep_pad2 isSep n s rest hs]
    rw [Nat.mod_eq_of_lt (by omega)]

/-! ### `searchISO` stepping lemmas -/

theorem matchISOAt_nd (c : Char) (cs : List Char) (h : isDigitC c = false) :
    matchISOAt (c :: cs) = none := by
  simp [matchISOAt, readExactDigits, h]

theorem searchISO_nd_cons (c : Char) (cs : List Char)
    (h : isDigitC c = false) : searchISO (c :: cs) = searchISO cs := by
  simp [searchISO, matchISOAt_nd c cs h]

theorem searchISO_append_nd (pre cs : List Char)
    (h : ∀ c ∈ pre, isDigitC c = false) :
    searchISO (pre ++ cs) = searchISO cs := by
  induction pre with
  | nil => simp
  | cons c pre ih =>
      rw [List.cons_append, searchISO_nd_cons c _ (h c (by simp))]
      exact ih (fun c hc => h c (by simp [hc]))

theorem searchISO_pad2_sep (n : Nat) (s : Char) (cs : List Char)
    (hs : isDigitC s = false) :
    searchISO (pad2 n ++ s :: cs) = searchISO cs := by
  simp [pad2, searchISO, matchISOAt, readExactDigits, isDigitC_dChar, hs,
    matchISOAt_nd s cs hs]

theorem searchISO_pad2_end (n : Nat) : searchISO (pad2 n) = none := by
  simp [pad2, searchISO, matchISOAt, readExactDigits, isDigitC_dChar]

theorem searchISO_num12_sep (n : Nat) (s : Char) (cs : List Char)
    (hs : isDigitC s = false) :
    searchISO (num12 n ++ s :: cs) = searchISO cs := by
  unfold num12
  by_cases h10 : n < 10
  · rw [if_pos h10]
    simp [searchISO, matchISOAt, readExactDigits, isDigitC_dChar, hs,
      matchISOAt_nd s cs hs]
  · rw [if_neg h10]
    exact searchISO_pad2_sep n s cs hs

theorem searchISO_cons_of_none (c : Char) (cs : List Char)
    (h : matchISOAt (c :: cs) = none) : searchISO (c :: cs) = searchISO cs := by
  simp [searchISO, h]

theorem searchISO_pad4_sep (y : Nat) (s : Char) (cs : List Char)
    (hs : isDigitC s = false) (hdash : s ≠ '-') :
    searchISO (pad4 y ++ s :: cs) = searchISO cs := by
  have h0 : matchISOAt (pad4 y ++ s :: cs) = none := by
    unfold matchISOAt
    rw [readExact4_pad4]
    simp [hdash]
  simp only [pad4, List.cons_append, List.nil_append] at h0 ⊢
  rw [searchISO_cons_of_none _ _ h0]
  rw [searchISO_cons_of_none _ _ (by
    simp [matchISOAt, readExactDigits, isDigitC_dChar, hs])]
  rw [searchISO_cons_of_none _ _ (by
    simp [matchISOAt, readExactDigits, isDigitC_dChar, hs])]
  rw [searchISO_cons_of_none _ _ (by
    simp [matchISOAt, readExactDigits, isDigitC_dChar, hs])]
  exact searchISO_nd_cons s cs hs

theorem searchISO_pad4_end (y : Nat) : searchISO (pad4 y) = none := by
  have h0 : matchISOAt (pad4 y) = none := by
    unfold matchISOAt
    rw [readExact4_pad4_nil]
  simp only [pad4] at h0 ⊢
  rw [searchISO_cons_of_none _ _ h0]
  rw [searchISO_cons_of_none _ _ (by
    simp [matchISOAt, readExactDigits, isDigitC_dChar])]
  rw [searchISO_cons_of_none _ _ (by
    simp [matchISOAt, readExactDigits, isDigitC_dChar])]
  rw [searchISO_cons_of_none _ _ (by
    simp [matchISOAt, readExactDigits, isDigitC_dChar])]
  rfl

/-! ### `searchNumeric` stepping lemmas -/

theorem read12Sep_nd (isSep : Char → Bool) (c : Char) (cs : List Char)
    (h : isDigitC c = false) : read12Sep isSep (c :: cs) = none := by
  cases cs with
  | nil => simp [read12Sep]
  | cons c2 t =>
      cases t with
      | nil => simp [read12Sep, h]
      | cons c3 r => simp [read12Sep, h]

theorem matchNumericAt_nd (c : Char) (cs : List Char)
    (h : isDigitC c = false) : matchNumericAt (c :: cs) = none := by
  simp [matchNumericAt, read12Sep_nd _ _ _ h]

theorem searchNumeric_cons_of_none (c : Char) (cs : List Char)
    (h : matchNumericAt (c :: cs) = none) :
    searchNumeric (c :: cs) = searchNumeric cs := by
  simp [searchNumeric, h]

theorem searchNumeric_nd_cons (c : Char) (cs : List Char)
    (h : isDigitC c = false) : searchNumeric (c :: cs) = searchNumeric cs :=
  searchNumeric_cons_of_none c cs (matchNumericAt_nd c cs h)

theorem searchNumeric_append_nd (pre cs : List Char)
    (h : ∀ c ∈ pre, isDigitC c = false) :
    searchNumeric (pre ++ cs) = searchNumeric cs := by
  induction pre with
  | nil => simp
  | cons c pre ih =>
      rw [List.cons_append, searchNumeric_nd_cons c _ (h c (by simp))]
      exact ih (fun c hc => h c (by simp [hc]))

theorem isDotC_dot : isDotC '.' = true := by decide

theorem isDigitC_dot : isDigitC '.' = false := by decide

theorem read12Sep_d2_sep (isSep : Char → Bool) (a b : Nat) (s : Char)
    (cs : List Char) (hsep : isSep s = true) :
    read12Sep isSep (dChar a :: dChar b :: s :: cs) =
      some (10 * (a % 10) + b % 10, cs) := by
  simp [read12Sep, isDigitC_dChar, digitVal_dChar, hsep]

theorem read12Sep_d1_sep (isSep : Char → Bool) (a : Nat) (s : Char)
    (cs : List Char) (hs : isDigitC s = false) (hsep : isSep s = true) :
    read12Sep isSep (dChar a :: s :: cs) = some (a % 10, cs) := by
  cases cs <;> simp [read12Sep, isDigitC_dChar, digitVal_dChar, hs, hsep]

theorem read12Sep_d2_nosep (isSep : Char → Bool) (a b : Nat) (s : Char)
    (cs : List Char) (hsep : isSep s = false) (hsb : isSep (dChar b) = false) :
    read12Sep isSep (dChar a :: dChar b :: s :: cs) = none := by
  simp [read12Sep, isDigitC_dChar, hsep, hsb]

theorem read12Sep_d1_nosep (isSep : Char → Bool) (a : Nat) (s : Char)
    (cs : List Char) (hs : isDigitC s = false) (hsep : isSep s = false) :
    read12Sep isSep (dChar a :: s :: cs) = none := by
  cases cs <;> simp [read12Sep, isDigitC_dChar, hs, hsep]

theorem matchNumericAt_d1_dot_nd (a : Nat) (s : Char) (cs : List Char)
    (hs : isDigitC s = false) :
    matchNumericAt (dChar a :: '.' :: s :: cs) = none := by
  simp [matchNumericAt, read12Sep_d1_sep isDotC a '.' (s :: cs) isDigitC_dot isDotC_dot,
    read12Sep_nd isDotC s cs hs]

theorem matchNumericAt_d2_dot_nd (a b : Nat) (s : Char) (cs : List Char)
    (hs : isDigitC s = false) :
    matchNumericAt (dChar a :: dChar b :: '.' :: s :: cs) = none := by
  simp [matchNumericAt, read12Sep_d2_sep isDotC a b '.' (s :: cs) isDotC_dot,
    read12Sep_nd isDotC s cs hs]

theorem matchNumericAt_d1_nodot (a : Nat) (s : Char) (cs : List Char)
    (hs : isDigitC s = false) (hdot : isDotC s = false) :
    matchNumericAt (dChar a :: s :: cs) = none := by
  simp [matchNumericAt, read12Sep_d1_nosep isDotC a s cs hs hdot]

theorem searchNumeric_num12_dot_nd (n : Nat) (s : Char) (cs : List Char)
    (hs : isDigitC s = false) :
    searchNumeric (num12 n ++ '.' :: s :: cs) = searchNumeric cs := by
  unfold num12
  by_cases h10 : n < 10
  · rw [if_pos h10]
    simp only [List.cons_append, List.nil_append]
    rw [searchNumeric_cons_of_none _ _ (matchNumericAt_d1_dot_nd n s cs hs)]
    rw [searchNumeric_nd_cons '.' _ isDigitC_dot]
    exact searchNumeric_nd_cons s cs hs
  · rw [if_neg h10]
    simp only [pad2, List.cons_append, List.nil_append]
    rw [searchNumeric_cons_of_none _ _ (matchNumericAt_d2_dot_nd _ _ s cs hs)]
    rw [searchNumeric_cons_of_none _ _ (matchNumericAt_d1_dot_nd _ s cs hs)]
    rw [searchNumeric_nd_cons '.' _ isDigitC_dot]
    exact searchNumeric_nd_cons s cs hs

theorem searchNumeric_pad4_sep (y : Nat) (s : Char) (cs : List Char)
    (hs : isDigitC s = false) (hdot : isDotC s = false) :
    searchNumeric (pad4 y ++ s :: cs) = searchNumeric cs := by
  simp only [pad4, List.cons_append, List.nil_append]
  rw [searchNumeric_cons_of_none _ _ (by
    simp [matchNumericAt, read12Sep, isDigitC_dChar, isDotC_dChar, hdot])]
  rw [searchNumeric_cons_of_none _ _ (by
    simp [matchNumericAt, read12Sep, isDigitC_dChar, isDotC_dChar, hdot])]
  rw [searchNumeric_cons_of_none _ _ (by
    simp [matchNumericAt, read12Sep, isDigitC_dChar, isDotC_dChar, hdot])]
  rw [searchNumeric_cons_of_none _ _ (by
    cases cs with
    | nil => simp [matchNumericAt, read12Sep, isDigitC_dChar, hdot]
    | cons c0 t =>
        simp [matchNumericAt, read12Sep, isDigitC_dChar, hs, hdot])]
  exact searchNumeric_nd_cons s cs hs

theorem searchNumeric_pad4_end (y : Nat) : searchNumeric (pad4 y) = none := by
  simp only [pad4]
  rw [searchNumeric_cons_of_none _ _ (by
    simp [matchNumericAt, read12Sep, isDigitC_dChar, isDotC_dChar])]
  rw [searchNumeric_cons_of_none _ _ (by
    simp [matchNumericAt, read12Sep, isDigitC_dChar, isDotC_dChar])]
  rw [searchNumeric_cons_of_none _ _ (by
    simp [matchNumericAt, read12Sep, isDigitC_dChar, isDotC_dChar])]
  rw [searchNumeric_cons_of_none _ _ (by
    simp [matchNumericAt, read12Sep])]
  rfl

theorem searchNumeric_pad2_sep (n : Nat) (s : Char) (cs : List Char)
    (hs : isDigitC s = false) (hdot : isDotC s = false) :
    searchNumeric (pad2 n ++ s :: cs) = searchNumeric cs := by
  simp only [pad2, List.cons_append, List.nil_append]
  rw [searchNumeric_cons_of_none _ _ (by
    simp [matchNumericAt, read12Sep, isDigitC_dChar, isDotC_dChar, hdot])]
  rw [searchNumeric_cons_of_none _ _ (by
    cases cs with
    | nil => simp [matchNumericAt, read12Sep, isDigitC_dChar, hdot]
    | cons c0 t =>
        simp [matchNumericAt, read12Sep, isDigitC_dChar, hs, hdot])]
  exact searchNumeric_nd_cons s cs hs

theorem searchNumeric_num12_sep (n : Nat) (s : Char) (cs : List Char)
    (hs : isDigitC s = false) (hdot : isDotC s = false) :
    searchNumeric (num12 n ++ s :: cs) = searchNumeric cs := by
  unfold num12
  by_cases h10 : n < 10
  · rw [if_pos h10]
    simp only [List.cons_append, List.nil_append]
    rw [searchNumeric_cons_of_none _ _ (matchNumericAt_d1_nodot n s cs hs hdot)]
    exact searchNumeric_nd_cons s cs hs
  · rw [if_neg h10]
    exact searchNumeric_pad2_sep n s cs hs hdot

/-! ### Matcher success lemmas on rendered dates -/

theorem isSpaceC_space : isSpaceC ' ' = true := by decide

theorem isDigitC_colon : isDigitC ':' = false := by decide

theorem isColonDotC_colon : isColonDotC ':' = true := by decide

theorem isWordC_space : isWordC ' ' = false := by decide

theorem isCommaSpaceC_comma : isCommaSpaceC ',' = true := by decide

theorem isWordC_not_space (c : Char) (h : isWordC c = true) :
    isSpaceC c = false := by
  cases hsp : isSpaceC c
  · rfl
  · exfalso
    have hc := hsp
    simp only [isSpaceC, Bool.or_eq_true, decide_eq_true_eq] at hc
    rcases hc with ((((h1 | h1) | h1) | h1) | h1) | h1 <;> subst h1 <;>
      exact absurd h (by decide)

theorem takeWhile_all_append (p : Char → Bool) (l : List Char) (c : Char)
    (rest : List Char) (hl : ∀ x ∈ l, p x = true) (hc : p c = false) :
    (l ++ c :: rest).takeWhile p = l := by
  induction l with
  | nil => simp [List.takeWhile_cons, hc]
  | cons a t ih =>
      simp [List.takeWhile_cons, hl a (by simp),
        ih (fun x hx => hl x (by simp [hx]))]

theorem dropWhile_all_append (p : Char → Bool) (l : List Char) (c : Char)
    (rest : List Char) (hl : ∀ x ∈ l, p x = true) (hc : p c = false) :
    (l ++ c :: rest).dropWhile p = c :: rest := by
  induction l with
  | nil => simp [List.dropWhile_cons, hc]
  | cons a t ih =>
      simp [List.dropWhile_cons, hl a (by simp),
        ih (fun x hx => hl x (by simp [hx]))]

theorem dropWhile_space_pad4 (y : Nat) (X : List Char) :
    (pad4 y ++ X).dropWhile isSpaceC = pad4 y ++ X := by
  simp [pad4, List.dropWhile_cons, isSpaceC_dChar]

theorem dropWhile_space_pad2 (n : Nat) (X : List Char) :
    (pad2 n ++ X).dropWhile isSpaceC = pad2 n ++ X := by
  simp [pad2, List.dropWhile_cons, isSpaceC_dChar]

theorem dropWhile_commaSpace_num12 (n : Nat) (X : List Char) :
    (num12 n ++ X).dropWhile isCommaSpaceC = num12 n ++ X := by
  unfold num12
  split <;> simp [pad2, List.dropWhile_cons, isCommaSpaceC_dChar]

theorem matchISOAt_renderISOFull (y mo d h mi s : Nat) :
    matchISOAt (renderISOFull y mo d h mi s) =
      some (y % 10000, mo % 100, d % 100, h % 100, mi % 100) := by
  simp [renderISOFull, matchISOAt, readExact4_pad4, readExact2_pad2,
    isoTimeTail, readExact2_pad2_nil]

theorem matchISOAt_renderISODate (y mo d : Nat) :
    matchISOAt (renderISODate y mo d) =
      some (y % 10000, mo % 100, d % 100, 0, 0) := by
  simp [renderISODate, matchISOAt, readExact4_pad4, readExact2_pad2,
    isoTimeTail, readExact2_pad2_nil]

theorem matchNumericAt_renderNumericFull (d mo y h mi : Nat) :
    matchNumericAt (renderNumericFull d mo y h mi) =
      some (d % 100, mo % 100, y % 10000, h % 100, mi % 100) := by
  simp [renderNumericFull, matchNumericAt, read12Sep_pad2, isDotC_dot,
    readExact4_pad4, numTimeTail, isSpaceC_space, dropWhile_space_pad2,
    isColonDotC_colon, readExact2_pad2_nil]

theorem matchNumericAt_renderNumericDate (d mo y : Nat) :
    matchNumericAt (renderNumericDate d mo y) =
      some (d % 100, mo % 100, y % 10000, 0, 0) := by
  simp [renderNumericDate, matchNumericAt, read12Sep_pad2, isDotC_dot,
    readExact4_pad4_nil, numTimeTail]

theorem germanTimeTail_render (h mi : Nat) (tl : List Char) (hh : h ≤ 99) :
    germanTimeTail (',' :: ' ' :: (num12 h ++ ':' :: (pad2 mi ++ tl))) =
      some (h, mi % 100) := by
  simp [germanTimeTail, isCommaSpaceC_comma, List.dropWhile_cons,
    isCommaSpaceC, isSpaceC_space, dropWhile_commaSpace_num12,
    read12Sep_num12 isColonDotC h ':' _ hh isDigitC_colon isColonDotC_colon,
    readExact2_pad2]

theorem germanTail_render (dd y : Nat) (n0 : Char) (ntl tail : List Char)
    (hw : ∀ c ∈ n0 :: ntl, isWordC c = true) :
    germanTail dd (' ' :: ((n0 :: ntl) ++ ' ' :: (pad4 y ++ tail))) =
      (match germanTimeTail tail with
       | some (h, mi) => some (dd, n0 :: ntl, y % 10000, h, mi)
       | none => some (dd, n0 :: ntl, y % 10000, 0, 0)) := by
  have hs0 : isSpaceC n0 = false := isWordC_not_space n0 (hw n0 (by simp))
  have hdrop : (' ' :: ((n0 :: ntl) ++ ' ' :: (pad4 y ++ tail))).dropWhile
      isSpaceC = (n0 :: ntl) ++ ' ' :: (pad4 y ++ tail) := by
    rw [List.dropWhile_cons_of_pos (by simp [isSpaceC_space])]
    rw [List.cons_append]
    exact List.dropWhile_cons_of_neg (by simp [hs0])
  unfold germanTail
  rw [hdrop, takeWhile_all_append isWordC _ ' ' _ hw isWordC_space,
    dropWhile_all_append isWordC _ ' ' _ hw isWordC_space]
  simp [isSpaceC_space, dropWhile_space_pad4, readExact4_pad4]


theorem matchGermanAt_render (dd y : Nat) (n0 : Char) (ntl tail : List Char)
    (hd : dd ≤ 99) (hw : ∀ c ∈ n0 :: ntl, isWordC c = true) :
    matchGermanAt (num12 dd ++ '.' :: ' ' :: ((n0 :: ntl) ++ ' ' ::
        (pad4 y ++ tail))) =
      (match germanTimeTail tail with
       | some (h, mi) => some (dd, n0 :: ntl, y % 10000, h, mi)
       | none => some (dd, n0 :: ntl, y % 10000, 0, 0)) := by
  unfold matchGermanAt
  rw [read12Sep_num12 isDotC dd '.' _ hd isDigitC_dot isDotC_dot]
  exact germanTail_render dd y n0 ntl tail hw

theorem searchISO_of_matchAt (cs : List Char) (g : Nat × Nat × Nat × Nat × Nat)
    (h : matchISOAt cs = some g) : searchISO cs = some g := by
  cases cs with
  | nil => exact absurd h (by simp [matchISOAt, readExactDigits])
  | cons c t => simp [searchISO, h]

theorem searchNumeric_of_matchAt (cs : List Char)
    (g : Nat × Nat × Nat × Nat × Nat) (h : matchNumericAt cs = some g) :
    searchNumeric cs = some g := by
  cases cs with
  | nil => exact absurd h (by simp [matchNumericAt, read12Sep])
  | cons c t => simp [searchNumeric, h]

theorem searchGerman_of_matchAt (cs : List Char)
    (g : Nat × List Char × Nat × Nat × Nat) (h : matchGermanAt cs = some g) :
    searchGerman cs = some g := by
  cases cs with
  | nil => exact absurd h (by simp [matchGermanAt, read12Sep])
  | cons c t => simp [searchGerman, h]

/-! ### Render-level search results -/

theorem isDigitC_space : isDigitC ' ' = false := by decide

theorem isDigitC_comma : isDigitC ',' = false := by decide

theorem isDotC_comma : isDotC ',' = false := by decide

theorem isDotC_colon : isDotC ':' = false := by decide

theorem isDotC_space : isDotC ' ' = false := by decide

theorem searchISO_renderNumericFull (d mo y h mi : Nat) :
    searchISO (renderNumericFull d mo y h mi) = none := by
  unfold renderNumericFull
  rw [searchISO_pad2_sep _ _ _ isDigitC_dot,
    searchISO_pad2_sep _ _ _ isDigitC_dot,
    searchISO_pad4_sep _ _ _ isDigitC_space (by decide),
    searchISO_pad2_sep _ _ _ isDigitC_colon]
  exact searchISO_pad2_end mi

theorem searchISO_renderNumericDate (d mo y : Nat) :
    searchISO (renderNumericDate d mo y) = none := by
  unfold renderNumericDate
  rw [searchISO_pad2_sep _ _ _ isDigitC_dot,
    searchISO_pad2_sep _ _ _ isDigitC_dot]
  exact searchISO_pad4_end y

theorem searchISO_renderGermanFull (d : Nat) (name : List Char) (y h mi : Nat)
    (hnd : ∀ c ∈ name, isDigitC c = false) :
    searchISO (renderGermanFull d name y h mi) = none := by
  unfold renderGermanFull
  rw [searchISO_num12_sep _ _ _ isDigitC_dot,
    searchISO_nd_cons ' ' _ isDigitC_space,
    searchISO_append_nd name _ hnd,
    searchISO_nd_cons ' ' _ isDigitC_space,
    searchISO_pad4_sep _ _ _ isDigitC_comma (by decide),
    searchISO_nd_cons ' ' _ isDigitC_space,
    searchISO_num12_sep _ _ _ isDigitC_colon,
    searchISO_pad2_sep _ _ _ isDigitC_space]
  decide

theorem searchISO_renderGermanDate (d : Nat) (name : List Char) (y : Nat)
    (hnd : ∀ c ∈ name, isDigitC c = false) :
    searchISO (renderGermanDate d name y) = none := by
  unfold renderGermanDate
  rw [searchISO_num12_sep _ _ _ isDigitC_dot,
    searchISO_nd_cons ' ' _ isDigitC_space,
    searchISO_append_nd name _ hnd,
    searchISO_nd_cons ' ' _ isDigitC_space]
  exact searchISO_pad4_end y

theorem searchNumeric_renderGermanFull (d : Nat) (name : List Char)
    (y h mi : Nat) (hnd : ∀ c ∈ name, isDigitC c = false) :
    searchNumeric (renderGermanFull d name y h mi) = none := by
  unfold renderGermanFull
  rw [searchNumeric_num12_dot_nd _ _ _ isDigitC_space,
    searchNumeric_append_nd name _ hnd,
    searchNumeric_nd_cons ' ' _ isDigitC_space,
    searchNumeric_pad4_sep _ _ _ isDigitC_comma isDotC_comma,
    searchNumeric_nd_cons ' ' _ isDigitC_space,
    searchNumeric_num12_sep _ _ _ isDigitC_colon isDotC_colon,
    searchNumeric_pad2_sep _ _ _ isDigitC_space isDotC_space]
  decide

theorem searchNumeric_renderGermanDate (d : Nat) (name : List Char) (y : Nat)
    (hnd : ∀ c ∈ name, isDigitC c = false) :
    searchNumeric (renderGermanDate d name y) = none := by
  unfold renderGermanDate
  rw [searchNumeric_num12_dot_nd _ _ _ isDigitC_space,
    searchNumeric_append_nd name _ hnd,
    searchNumeric_nd_cons ' ' _ isDigitC_space]
  exact searchNumeric_pad4_end y

/-! ### `strip` is the identity on rendered dates -/

theorem stripLead_cons_ns (c : Char) (cs : List Char) (h : isSpaceC c = false) :
    stripLead (c :: cs) = c :: cs := by
  simp [stripLead, List.dropWhile_cons, h]

theorem stripWs_cons_ns (c : Char) (cs : List Char) (h : isSpaceC c = false)
    (h2 : ∀ x, (c :: cs).getLast? = some x → isSpaceC x = false) :
    stripWs (c :: cs) = c :: cs := by
  unfold stripWs
  rw [stripLead_cons_ns c cs h]
  cases hrev : (c :: cs).reverse with
  | nil => exact absurd hrev (by simp)
  | cons b rb =>
      have hb : (c :: cs).getLast? = some b := by
        rw [← List.head?_reverse, hrev]
        rfl
      rw [List.dropWhile_cons_of_neg (by simp [h2 b hb]), ← hrev,
        List.reverse_reverse]

theorem getLast?_cons_cons (a b : Char) (l : List Char) :
    (a :: b :: l).getLast? = (b :: l).getLast? := rfl

theorem getLast?_cons_ne (c : Char) (l : List Char) (h : l ≠ []) :
    (c :: l).getLast? = l.getLast? := by
  cases l with
  | nil => exact absurd rfl h
  | cons a t => exact getLast?_cons_cons c a t

theorem getLast?_cons_append :
    ∀ (l1 : List Char) (c : Char) (l2 : List Char),
      (l1 ++ c :: l2).getLast? = (c :: l2).getLast?
  | [], _, _ => rfl
  | a :: t, c, l2 => by
      rw [List.cons_append, getLast?_cons_ne _ _ (by simp),
        getLast?_cons_append t c l2]

theorem getLast?_pad2 (n : Nat) : (pad2 n).getLast? = some (dChar n) := rfl

theorem getLast?_pad4 (n : Nat) : (pad4 n).getLast? = some (dChar n) := rfl

theorem stripWs_cons_of_getLast (c : Char) (cs : List Char) (b : Char)
    (h : isSpaceC c = false) (hl : (c :: cs).getLast? = some b)
    (hb : isSpaceC b = false) : stripWs (c :: cs) = c :: cs := by
  refine stripWs_cons_ns c cs h (fun x hx => ?_)
  rw [hl] at hx
  injection hx with hx
  rw [← hx]
  exact hb

theorem getLast?_renderISOFull (y mo d h mi s : Nat) :
    (renderISOFull y mo d h mi s).getLast? = some (dChar s) := by
  unfold renderISOFull
  rw [getLast?_cons_append, getLast?_cons_ne _ _ (by simp [pad2]),
    getLast?_cons_append, getLast?_cons_ne _ _ (by simp [pad2]),
    getLast?_cons_append, getLast?_cons_ne _ _ (by simp [pad2]),
    getLast?_cons_append, getLast?_cons_ne _ _ (by simp [pad2]),
    getLast?_cons_append, getLast?_cons_ne _ _ (by simp [pad2]),
    getLast?_pad2]

theorem stripWs_renderISOFull (y mo d h mi s : Nat) :
    stripWs (renderISOFull y mo d h mi s) = renderISOFull y mo d h mi s := by
  have hl := getLast?_renderISOFull y mo d h mi s
  unfold renderISOFull at hl ⊢
  simp only [pad4, List.cons_append, List.nil_append] at hl ⊢
  exact stripWs_cons_of_getLast _ _ _ (isSpaceC_dChar _) hl (isSpaceC_dChar s)

theorem getLast?_renderISODate (y mo d : Nat) :
    (renderISODate y mo d).getLast? = some (dChar d) := by
  unfold renderISODate
  rw [getLast?_cons_append, getLast?_cons_ne _ _ (by simp [pad2]),
    getLast?_cons_append, getLast?_cons_ne _ _ (by simp [pad2]),
    getLast?_pad2]

theorem stripWs_renderISODate (y mo d : Nat) :
    stripWs (renderISODate y mo d) = renderISODate y mo d := by
  have hl := getLast?_renderISODate y mo d
  unfold renderISODate at hl ⊢
  simp only [pad4, List.cons_append, List.nil_append] at hl ⊢
  exact stripWs_cons_of_getLast _ _ _ (isSpaceC_dChar _) hl (isSpaceC_dChar d)

theorem getLast?_renderNumericFull (d mo y h mi : Nat) :
    (renderNumericFull d mo y h mi).getLast? = some (dChar mi) := by
  unfold renderNumericFull
  rw [getLast?_cons_append, getLast?_cons_ne _ _ (by simp [pad2]),
    getLast?_cons_append, getLast?_cons_ne _ _ (by simp [pad4]),
    getLast?_cons_append, getLast?_cons_ne _ _ (by simp [pad2]),
    getLast?_cons_append, getLast?_cons_ne _ _ (by simp [pad2]),
    getLast?_pad2]

theorem stripWs_renderNumericFull (d mo y h mi : Nat) :
    stripWs (renderNumericFull d mo y h mi) = renderNumericFull d mo y h mi := by
  have hl := getLast?_renderNumericFull d mo y h mi
  unfold renderNumericFull at hl ⊢
  simp only [pad2, List.cons_append, List.nil_append] at hl ⊢
  exact stripWs_cons_of_getLast _ _ _ (isSpaceC_dChar _) hl (isSpaceC_dChar mi)

theorem getLast?_renderNumericDate (d mo y : Nat) :
    (renderNumericDate d mo y).getLast? = some (dChar y) := by
  unfold renderNumericDate
  rw [getLast?_cons_append, getLast?_cons_ne _ _ (by simp [pad2]),
    getLast?_cons_append, getLast?_cons_ne _ _ (by simp [pad4]),
    getLast?_pad4]

theorem stripWs_renderNumericDate (d mo y : Nat) :
    stripWs (renderNumericDate d mo y) = renderNumericDate d mo y := by
  have hl := getLast?_renderNumericDate d mo y
  unfold renderNumericDate at hl ⊢
  simp only [pad2, List.cons_append, List.nil_append] at hl ⊢
  exact stripWs_cons_of_getLast _ _ _ (isSpaceC_dChar _) hl (isSpaceC_dChar y)

theorem num12_cons (n : Nat) : ∃ k rest, num12 n = dChar k :: rest := by
  unfold num12
  by_cases h10 : n < 10
  · exact ⟨n, [], by rw [if_pos h10]⟩
  · exact ⟨n / 10, [dChar n], by rw [if_neg h10]; rfl⟩

theorem getLast?_renderGermanFull (d : Nat) (name : List Char) (y h mi : Nat) :
    (renderGermanFull d name y h mi).getLast? = some 'r' := by
  unfold renderGermanFull
  rw [getLast?_cons_append, getLast?_cons_ne _ _ (by simp),
    getLast?_cons_ne _ _ (by simp),
    getLast?_cons_append, getLast?_cons_ne _ _ (by simp [pad4]),
    getLast?_cons_append, getLast?_cons_ne _ _ (by simp),
    getLast?_cons_ne _ _ (by
      obtain ⟨k, rest, hk⟩ := num12_cons h
      simp [hk]),
    getLast?_cons_append, getLast?_cons_ne _ _ (by simp [pad2]),
    getLast?_cons_append]
  rfl

theorem stripWs_renderGermanFull (d : Nat) (name : List Char) (y h mi : Nat) :
    stripWs (renderGermanFull d name y h mi) = renderGermanFull d name y h mi := by
  have hl := getLast?_renderGermanFull d name y h mi
  obtain ⟨k, rest, hk⟩ := num12_cons d
  unfold renderGermanFull at hl ⊢
  rw [hk] at hl ⊢
  simp only [List.cons_append] at hl ⊢
  exact stripWs_cons_of_getLast _ _ _ (isSpaceC_dChar _) hl (by decide)

theorem getLast?_renderGermanDate (d : Nat) (name : List Char) (y : Nat) :
    (renderGermanDate d name y).getLast? = some (dChar y) := by
  unfold renderGermanDate
  rw [getLast?_cons_append, getLast?_cons_ne _ _ (by simp),
    getLast?_cons_ne _ _ (by simp),
    getLast?_cons_append, getLast?_cons_ne _ _ (by simp [pad4]),
    getLast?_pad4]

theorem stripWs_renderGermanDate (d : Nat) (name : List Char) (y : Nat) :
    stripWs (renderGermanDate d name y) = renderGermanDate d name y := by
  have hl := getLast?_renderGermanDate d name y
  obtain ⟨k, rest, hk⟩ := num12_cons d
  unfold renderGermanDate at hl ⊢
  rw [hk] at hl ⊢
  simp only [List.cons_append] at hl ⊢
  exact stripWs_cons_of_getLast _ _ _ (isSpaceC_dChar _) hl (isSpaceC_dChar y)

/-! ### `parse_german_date` round-trips on rendered dates -/

theorem daysInMonth_le_31 (y mo : Nat) : daysInMonth y mo ≤ 31 := by
  unfold daysInMonth
  split_ifs <;> omega

theorem mkDatetime_of_valid (y mo d h mi : Nat) (h1 : 1 ≤ y) (h2 : y ≤ 9999)
    (h3 : 1 ≤ mo) (h4 : mo ≤ 12) (h5 : 1 ≤ d) (h6 : d ≤ daysInMonth y mo)
    (h7 : h ≤ 23) (h8 : mi ≤ 59) :
    mkDatetime y mo d h mi = some ⟨y, mo, d, h, mi, 0, 0⟩ := by
  have hv : validDT y mo d h mi = true := by
    unfold validDT
    simp only [Bool.and_eq_true, decide_eq_true_eq]
    exact ⟨⟨⟨⟨⟨⟨⟨h1, h2⟩, h3⟩, h4⟩, h5⟩, h6⟩, h7⟩, h8⟩
  simp [mkDatetime, hv]

theorem parse_renderISOFull (y mo d h mi s : Nat) (h1 : 1 ≤ y) (h2 : y ≤ 9999)
    (h3 : 1 ≤ mo) (h4 : mo ≤ 12) (h5 : 1 ≤ d) (h6 : d ≤ daysInMonth y mo)
    (h7 : h ≤ 23) (h8 : mi ≤ 59) :
    parse_german_date (renderISOFull y mo d h mi s) =
      some ⟨y, mo, d, h, mi, 0, 0⟩ := by
  have hd31 := daysInMonth_le_31 y mo
  unfold parse_german_date
  rw [if_neg (by unfold renderISOFull; simp [pad4])]
  rw [stripWs_renderISOFull]
  unfold isoStrategy
  rw [searchISO_of_matchAt _ _ (matchISOAt_renderISOFull y mo d h mi s)]
  simp only [Nat.mod_eq_of_lt (show y < 10000 by omega),
    Nat.mod_eq_of_lt (show mo < 100 by omega),
    Nat.mod_eq_of_lt (show d < 100 by omega),
    Nat.mod_eq_of_lt (show h < 100 by omega),
    Nat.mod_eq_of_lt (show mi < 100 by omega)]
  rw [mkDatetime_of_valid y mo d h mi h1 h2 h3 h4 h5 h6 h7 h8]

theorem parse_renderISODate (y mo d : Nat) (h1 : 1 ≤ y) (h2 : y ≤ 9999)
    (h3 : 1 ≤ mo) (h4 : mo ≤ 12) (h5 : 1 ≤ d) (h6 : d ≤ daysInMonth y mo) :
    parse_german_date (renderISODate y mo d) = some ⟨y, mo, d, 0, 0, 0, 0⟩ := by
  have hd31 := daysInMonth_le_31 y mo
  unfold parse_german_date
  rw [if_neg (by unfold renderISODate; simp [pad4])]
  rw [stripWs_renderISODate]
  unfold isoStrategy
  rw [searchISO_of_matchAt _ _ (matchISOAt_renderISODate y mo d)]
  simp only [Nat.mod_eq_of_lt (show y < 10000 by omega),
    Nat.mod_eq_of_lt (show mo < 100 by omega),
    Nat.mod_eq_of_lt (show d < 100 by omega)]
  rw [mkDatetime_of_valid y mo d 0 0 h1 h2 h3 h4 h5 h6 (by omega) (by omega)]

theorem parse_renderNumericFull (d mo y h mi : Nat) (h1 : 1 ≤ y)
    (h2 : y ≤ 9999) (h3 : 1 ≤ mo) (h4 : mo ≤ 12) (h5 : 1 ≤ d)
    (h6 : d ≤ daysInMonth y mo) (h7 : h ≤ 23) (h8 : mi ≤ 59) :
    parse_german_date (renderNumericFull d mo y h mi) =
      some ⟨y, mo, d, h, mi, 0, 0⟩ := by
  have hd31 := daysInMonth_le_31 y mo
  unfold parse_german_date
  rw [if_neg (by unfold renderNumericFull; simp [pad2])]
  rw [stripWs_renderNumericFull]
  unfold isoStrategy
  rw [searchISO_renderNumericFull]
  unfold numericStrategy
  rw [searchNumeric_of_matchAt _ _ (matchNumericAt_renderNumericFull d mo y h mi)]
  simp only [Nat.mod_eq_of_lt (show y < 10000 by omega),
    Nat.mod_eq_of_lt (show mo < 100 by omega),
    Nat.mod_eq_of_lt (show d < 100 by omega),
    Nat.mod_eq_of_lt (show h < 100 by omega),
    Nat.mod_eq_of_lt (show mi < 100 by omega)]
  rw [mkDatetime_of_valid y mo d h mi h1 h2 h3 h4 h5 h6 h7 h8]

theorem parse_renderNumericDate (d mo y : Nat) (h1 : 1 ≤ y) (h2 : y ≤ 9999)
    (h3 : 1 ≤ mo) (h4 : mo ≤ 12) (h5 : 1 ≤ d) (h6 : d ≤ daysInMonth y mo) :
    parse_german_date (renderNumericDate d mo y) =
      some ⟨y, mo, d, 0, 0, 0, 0⟩ := by
  have hd31 := daysInMonth_le_31 y mo
  unfold parse_german_date
  rw [if_neg (by unfold renderNumericDate; simp [pad2])]
  rw [stripWs_renderNumericDate]
  unfold isoStrategy
  rw [searchISO_renderNumericDate]
  unfold numericStrategy
  rw [searchNumeric_of_matchAt _ _ (matchNumericAt_renderNumericDate d mo y)]
  simp only [Nat.mod_eq_of_lt (show y < 10000 by omega),
    Nat.mod_eq_of_lt (show mo < 100 by omega),
    Nat.mod_eq_of_lt (show d < 100 by omega)]
  rw [mkDatetime_of_valid y mo d 0 0 h1 h2 h3 h4 h5 h6 (by omega) (by omega)]

theorem parse_renderGermanFull (dd y h mi mo : Nat) (n0 : Char)
    (ntl : List Char) (hw : ∀ c ∈ n0 :: ntl, isWordC c = true)
    (hnd : ∀ c ∈ n0 :: ntl, isDigitC c = false)
    (hmo : monthLookup ((n0 :: ntl).map lowerC) = some mo)
    (h1 : 1 ≤ y) (h2 : y ≤ 9999) (h3 : 1 ≤ mo) (h4 : mo ≤ 12) (h5 : 1 ≤ dd)
    (h6 : dd ≤ daysInMonth y mo) (h7 : h ≤ 23) (h8 : mi ≤ 59) :
    parse_german_date (renderGermanFull dd (n0 :: ntl) y h mi) =
      some ⟨y, mo, dd, h, mi, 0, 0⟩ := by
  have hd31 := daysInMonth_le_31 y mo
  unfold parse_german_date
  rw [if_neg (by
    obtain ⟨k, rest, hk⟩ := num12_cons dd
    unfold renderGermanFull
    rw [hk]
    simp)]
  rw [stripWs_renderGermanFull]
  unfold isoStrategy
  rw [searchISO_renderGermanFull dd _ y h mi hnd]
  unfold numericStrategy
  rw [searchNumeric_renderGermanFull dd _ y h mi hnd]
  unfold germanStrategy
  rw [searchGerman_of_matchAt _ (dd, n0 :: ntl, y % 10000, h, mi % 100) (by
    unfold renderGermanFull
    rw [matchGermanAt_render dd y n0 ntl _ (by omega) hw]
    rw [germanTimeTail_render h mi _ (by omega)])]
  simp only [Nat.mod_eq_of_lt (show y < 10000 by omega),
    Nat.mod_eq_of_lt (show mi < 100 by omega)]
  rw [hmo]
  exact mkDatetime_of_valid y mo dd h mi h1 h2 h3 h4 h5 h6 h7 h8

theorem parse_renderGermanDate (dd y mo : Nat) (n0 : Char) (ntl : List Char)
    (hw : ∀ c ∈ n0 :: ntl, isWordC c = true)
    (hnd : ∀ c ∈ n0 :: ntl, isDigitC c = false)
    (hmo : monthLookup ((n0 :: ntl).map lowerC) = some mo)
    (h1 : 1 ≤ y) (h2 : y ≤ 9999) (h3 : 1 ≤ mo) (h4 : mo ≤ 12) (h5 : 1 ≤ dd)
    (h6 : dd ≤ daysInMonth y mo) :
    parse_german_date (renderGermanDate dd (n0 :: ntl) y) =
      some ⟨y, mo, dd, 0, 0, 0, 0⟩ := by
  have hd31 := daysInMonth_le_31 y mo
  unfold parse_german_date
  rw [if_neg (by
    obtain ⟨k, rest, hk⟩ := num12_cons dd
    unfold renderGermanDate
    rw [hk]
    simp)]
  rw [stripWs_renderGermanDate]
  unfold isoStrategy
  rw [searchISO_renderGermanDate dd _ y hnd]
  unfold numericStrategy
  rw [searchNumeric_renderGermanDate dd _ y hnd]
  unfold germanStrategy
  rw [searchGerman_of_matchAt _ (dd, n0 :: ntl, y % 10000, 0, 0) (by
    unfold renderGermanDate
    rw [← List.append_nil (pad4 y)]
    rw [matchGermanAt_render dd y n0 ntl [] (by omega) hw]
    rfl)]
  simp only [Nat.mod_eq_of_lt (show y < 10000 by omega)]
  rw [hmo]
  exact mkDatetime_of_valid y mo dd 0 0 h1 h2 h3 h4 h5 h6 (by omega) (by omega)

/-! ### C3 and C5 -/

theorem GERMAN_MONTHS_names_ok : ∀ p ∈ GERMAN_MONTHS, p.1 ≠ [] ∧
    (∀ c ∈ p.1, isWordC c = true) ∧ (∀ c ∈ p.1, isDigitC c = false) ∧
    p.1.map lowerC = p.1 ∧ monthLookup p.1 = some p.2 := by decide

theorem validDT_of_mkDatetime (y mo d h mi : Nat) (dt : PyDT)
    (heq : mkDatetime y mo d h mi = some dt) :
    validDT dt.year dt.month dt.day dt.hour dt.minute = true := by
  unfold mkDatetime at heq
  by_cases hv : validDT y mo d h mi = true
  · rw [if_pos hv] at heq
    injection heq with heq
    subst heq
    exact hv
  · rw [if_neg hv] at heq
    cases heq

theorem isoStrategy_valid (t : List Char) (dt : PyDT)
    (h : isoStrategy t = some dt) :
    validDT dt.year dt.month dt.day dt.hour dt.minute = true := by
  unfold isoStrategy at h
  cases hs : searchISO t with
  | none => rw [hs] at h; cases h
  | some g =>
      obtain ⟨y, mo, d, hh, mi⟩ := g
      rw [hs] at h
      exact validDT_of_mkDatetime y mo d hh mi dt h

theorem numericStrategy_valid (t : List Char) (dt : PyDT)
    (h : numericStrategy t = some dt) :
    validDT dt.year dt.month dt.day dt.hour dt.minute = true := by
  unfold numericStrategy at h
  cases hs : searchNumeric t with
  | none => rw [hs] at h; cases h
  | some g =>
      obtain ⟨d, mo, y, hh, mi⟩ := g
      rw [hs] at h
      exact validDT_of_mkDatetime y mo d hh mi dt h

theorem germanStrategy_valid (t : List Char) (dt : PyDT)
    (h : germanStrategy t = some dt) :
    validDT dt.year dt.month dt.day dt.hour dt.minute = true := by
  unfold germanStrategy at h
  cases hs : searchGerman t with
  | none => rw [hs] at h; cases h
  | some g =>
      obtain ⟨d, w, y, hh, mi⟩ := g
      rw [hs] at h
      have h' : (match monthLookup (w.map lowerC) with
          | some mo => mkDatetime y mo d hh mi
          | none => none) = some dt := h
      cases hm : monthLookup (w.map lowerC) with
      | none => rw [hm] at h'; cases h'
      | some mo =>
          rw [hm] at h'
          exact validDT_of_mkDatetime y mo d hh mi dt h'

theorem parse_german_date_valid (cs : List Char) (dt : PyDT)
    (h : parse_german_date cs = some dt) :
    validDT dt.year dt.month dt.day dt.hour dt.minute = true := by
  unfold parse_german_date at h
  by_cases he : cs.isEmpty = true
  · rw [if_pos he] at h
    cases h
  · rw [if_neg he] at h
    cases hi : isoStrategy (stripWs cs) with
    | some dt' =>
        rw [hi] at h
        have hd : dt' = dt := by injection h
        subst hd
        exact isoStrategy_valid _ _ hi
    | none =>
        rw [hi] at h
        cases hn : numericStrategy (stripWs cs) with
        | some dt' =>
            rw [hn] at h
            have hd : dt' = dt := by injection h
            subst hd
            exact numericStrategy_valid _ _ hn
        | none =>
            rw [hn] at h
            exact germanStrategy_valid _ _ h

/-- C3: every valid `(year, month, day, hour, minute)` tuple rendered in any
of the supported textual styles — ISO `YYYY-MM-DD[THH:MM[:SS]]`, numeric
German `DD.MM.YYYY[ HH:MM]`, or German month-name
`D. <Monatsname> YYYY[, H:MM Uhr]` for every month name of the
`GERMAN_MONTHS` table — is recovered exactly by `parse_german_date`,
missing time components defaulting to 00:00; moreover the three parsing
strategies are attempted in the fixed order ISO, numeric, German
month-name, and the first success is returned. -/
theorem C3_parse_german_date_roundtrip (y mo d h mi s : Nat)
    (h1 : 1 ≤ y) (h2 : y ≤ 9999) (h3 : 1 ≤ mo) (h4 : mo ≤ 12)
    (h5 : 1 ≤ d) (h6 : d ≤ daysInMonth y mo) (h7 : h ≤ 23) (h8 : mi ≤ 59) :
    parse_german_date (renderISOFull y mo d h mi s) =
      some ⟨y, mo, d, h, mi, 0, 0⟩ ∧
    parse_german_date (renderISODate y mo d) = some ⟨y, mo, d, 0, 0, 0, 0⟩ ∧
    parse_german_date (renderNumericFull d mo y h mi) =
      some ⟨y, mo, d, h, mi, 0, 0⟩ ∧
    parse_german_date (renderNumericDate d mo y) =
      some ⟨y, mo, d, 0, 0, 0, 0⟩ ∧
    (∀ p ∈ GERMAN_MONTHS, p.2 = mo →
      parse_german_date (renderGermanFull d p.1 y h mi) =
        some ⟨y, mo, d, h, mi, 0, 0⟩ ∧
      parse_german_date (renderGermanDate d p.1 y) =
        some ⟨y, mo, d, 0, 0, 0, 0⟩) ∧
    (∀ cs dt, isoStrategy (stripWs cs) = some dt → cs ≠ [] →
      parse_german_date cs = some dt) ∧
    (∀ cs dt, isoStrategy (stripWs cs) = none →
      numericStrategy (stripWs cs) = some dt → cs ≠ [] →
      parse_german_date cs = some dt) ∧
    (∀ cs, isoStrategy (stripWs cs) = none →
      numericStrategy (stripWs cs) = none → cs ≠ [] →
      parse_german_date cs = germanStrategy (stripWs cs)) := by
  refine ⟨parse_renderISOFull y mo d h mi s h1 h2 h3 h4 h5 h6 h7 h8,
    parse_renderISODate y mo d h1 h2 h3 h4 h5 h6,
    parse_renderNumericFull d mo y h mi h1 h2 h3 h4 h5 h6 h7 h8,
    parse_renderNumericDate d mo y h1 h2 h3 h4 h5 h6, ?_, ?_, ?_, ?_⟩
  · intro p hp hpmo
    obtain ⟨hne, hw, hnd, hlow, hluk⟩ := GERMAN_MONTHS_names_ok p hp
    cases hcons : p.1 with
    | nil => exact absurd hcons hne
    | cons n0 ntl =>
        rw [hcons] at hw hnd hlow hluk
        have hmo : monthLookup ((n0 :: ntl).map lowerC) = some mo := by
          rw [hlow, hluk, hpmo]
        exact ⟨parse_renderGermanFull d y h mi mo n0 ntl hw hnd hmo
            h1 h2 h3 h4 h5 h6 h7 h8,
          parse_renderGermanDate d y mo n0 ntl hw hnd hmo h1 h2 h3 h4 h5 h6⟩
  · intro cs dt hiso hne
    unfold parse_german_date
    rw [if_neg (by simp [List.isEmpty_iff, hne]), hiso]
  · intro cs dt hiso hnum hne
    unfold parse_german_date
    rw [if_neg (by simp [List.isEmpty_iff, hne]), hiso, hnum]
  · intro cs hiso hnum hne
    unfold parse_german_date
    rw [if_neg (by simp [List.isEmpty_iff, hne]), hiso, hnum]

theorem C3_parse_german_date_roundtrip_witness :
    parse_german_date (renderGermanFull 15 "märz".data 2026 19 30) =
      some ⟨2026, 3, 15, 19, 30, 0, 0⟩ ∧
    parse_german_date (renderNumericFull 25 4 2026 18 0) =
      some ⟨2026, 4, 25, 18, 0, 0, 0⟩ := by
  constructor
  · exact ((C3_parse_german_date_roundtrip 2026 3 15 19 30 0 (by decide)
      (by decide) (by decide) (by decide) (by decide) (by decide) (by decide)
      (by decide)).2.2.2.2.1 ("märz".data, 3) (by decide) rfl).1
  · exact (C3_parse_german_date_roundtrip 2026 4 25 18 0 0 (by decide)
      (by decide) (by decide) (by decide) (by decide) (by decide) (by decide)
      (by decide)).2.2.1

/-- C5: input text whose date components fail Gregorian-calendar validation
(such as `"31.02.2026"`) makes the matching strategy fail and fall back to
the next one (or return `none`) instead of raising; the parser is total and
any datetime it returns passed `datetime`'s Gregorian validation. -/
theorem C5_invalid_calendar_dates :
    parse_german_date "31.02.2026".data = none ∧
    parse_german_date "2026-13-40 01.05.2026".data =
      some ⟨2026, 5, 1, 0, 0, 0, 0⟩ ∧
    ∀ cs dt, parse_german_date cs = some dt →
      validDT dt.year dt.month dt.day dt.hour dt.minute = true :=
  ⟨by decide, by decide, parse_german_date_valid⟩

theorem C5_invalid_calendar_dates_witness :
    parse_german_date "25.04.2026".data = some ⟨2026, 4, 25, 0, 0, 0, 0⟩ ∧
    validDT 2026 4 25 0 0 = true := by
  constructor
  · decide
  · exact C5_invalid_calendar_dates.2.2 "25.04.2026".data
      ⟨2026, 4, 25, 0, 0, 0, 0⟩ (by decide)

/-! ### `_normalize_title` and `deduplicate_events` from `src/build/generate.py` -/

/-- NFKD decomposition (`unicodedata.normalize("NFKD", ·)`), restricted to
the precomposed Latin letters that occur in the sources; identity
elsewhere. -/
def nfkdChar (c : Char) : List Char :=
  if c = 'ä' then ['a', '̈'] else if c = 'ö' then ['o', '̈']
  else if c = 'ü' then ['u', '̈'] else if c = 'é' then ['e', '́']
  else if c = 'è' then ['e', '̀'] else if c = 'ê' then ['e', '̂']
  else if c = 'à' then ['a', '̀'] else if c = 'á' then ['a', '́']
  else [c]

/-- `unicodedata.combining(c) != 0`, restricted to the combining diacritical
marks block that the decompositions above produce. -/
def combiningC (c : Char) : Bool := 0x300 ≤ c.toNat && c.toNat ≤ 0x36F

/-- The character class kept by `_RE_NON_ALNUM = [^a-z0-9 ]`. -/
def isKeepC (c : Char) : Bool :=
  (97 ≤ c.toNat && c.toNat ≤ 122) || isDigitC c || c = ' '

/-- `_RE_NON_ALNUM.sub(" ", ·)`: every maximal run of characters outside
`[a-z0-9 ]` becomes a single space.  The flag records whether the scanner
is inside such a run. -/
def subNonAlnumGo : Bool → List Char → List Char
  | _, [] => []
  | inRun, c :: cs =>
      if isKeepC c then c :: subNonAlnumGo false cs
      else if inRun then subNonAlnumGo true cs
      else ' ' :: subNonAlnumGo true cs

def subNonAlnum (cs : List Char) : List Char := subNonAlnumGo false cs

/-- `_RE_MULTI_SPACE.sub(" ", ·)`: every maximal run of whitespace becomes
a single space. -/
def collapseWsGo : Bool → List Char → List Char
  | _, [] => []
  | inRun, c :: cs =>
      if isSpaceC c then
        (if inRun then collapseWsGo true cs else ' ' :: collapseWsGo true cs)
      else c :: collapseWsGo false cs

def collapseWs (cs : List Char) : List Char := collapseWsGo false cs

/-- `_normalize_title` from `src/build/generate.py`: lowercase, strip,
NFKD-decompose and drop combining marks, replace non-alphanumeric runs by
spaces, collapse whitespace, strip. -/
def _normalize_title (cs : List Char) : List Char :=
  stripWs (collapseWs (subNonAlnum
    (((stripWs (cs.map lowerC)).map nfkdChar).flatten.filter
      (fun c => !combiningC c))))

example : _normalize_title "JAZZ NIGHT!!".data = "jazz night".data := by decide
example : _normalize_title "Jazz Night".data = "jazz night".data := by decide
example : _normalize_title "  Späße  &  Töne ".data = "spa e tone".data := by decide

/-- A stored event row as returned by `get_all_events` (one SQLite row of
the `events` table, viewed as a dict). -/
structure Ev where
  id : Nat := 0
  title : String := ""
  date_start : String := ""
  date_end : Option String := none
  description : String := ""
  location : String := ""
  city : String := ""
  category : String := ""
  image_url : String := ""
  url : String := ""
  price : String := ""
  source : String := ""
  tags : String := ""
  scraped_at : String := ""
deriving DecidableEq, Repr, Inhabited

/-- One `{source, url}` provenance entry of a merged event. -/
structure SrcRef where
  source : String
  url : String
deriving DecidableEq, Repr

/-- A merged event: the chosen field values plus the `sources` list that
`deduplicate_events` adds. -/
structure MEv where
  ev : Ev
  sources : List SrcRef
deriving DecidableEq, Repr

/-- Grouping key `(normalized_title, date_only)`:
`(_normalize_title(ev["title"]), ev["date_start"][:10])`. -/
def evKey (e : Ev) : List Char × String :=
  (_normalize_title e.title.data, e.date_start.take 10)

def mkey (m : MEv) : List Char × String := evKey m.ev

/-- Keys of a Python dict in insertion order (first occurrence wins);
`seen` accumulates the keys already emitted. -/
def firstOccurAux {α : Type} [DecidableEq α] : List α → List α → List α
  | _, [] => []
  | seen, k :: ks =>
      if k ∈ seen then firstOccurAux seen ks
      else k :: firstOccurAux (k :: seen) ks

def firstOccur {α : Type} [DecidableEq α] (l : List α) : List α :=
  firstOccurAux [] l

/-- Code-point lexicographic comparison, the order Python uses on `str`
and SQLite uses on `TEXT`. -/
def lexLe : List Char → List Char → Bool
  | [], _ => true
  | _ :: _, [] => false
  | a :: as, b :: bs =>
      if a.toNat < b.toNat then true
      else if b.toNat < a.toNat then false
      else lexLe as bs

def strLeB (a b : String) : Bool := lexLe a.data b.data

/-- The members of the list carrying key `k`, in arrival order. -/
def groupOf (events : List Ev) (k : List Char × String) : List Ev :=
  events.filter (fun e => decide (evKey e = k))

/-- `max(group, key=lambda e: len(e.get("description") or ""))`: Python's
`max` keeps the first element attaining the maximum. -/
def pickLonger (a e : Ev) : Ev :=
  if e.description.length > a.description.length then e else a

def maxDesc (a : Ev) (l : List Ev) : Ev := l.foldl pickLonger a

/-- `next((f(e) for e in group if f(e)), "")`. -/
def firstNonEmpty (f : Ev → String) (g : List Ev) : String :=
  match g.find? (fun e => decide (f e ≠ "")) with
  | some e => f e
  | none => ""

/-- Merge one duplicate group, as in the body of `deduplicate_events`:
size-1 groups pass through with a singleton `sources` list; larger groups
take the primary's fields, the longest description, the first non-empty
`image_url` / `location` / `category` / `price`, and all provenance. -/
def mergeGroup (group : List Ev) : MEv :=
  match group with
  | [] => ⟨default, []⟩
  | ev :: rest =>
      if rest.isEmpty then ⟨ev, [⟨ev.source, ev.url⟩]⟩
      else
        { ev := { ev with
            source := ev.source,
            description := (maxDesc ev rest).description,
            image_url := firstNonEmpty (fun e => e.image_url) (ev :: rest),
            location := firstNonEmpty (fun e => e.location) (ev :: rest),
            category := firstNonEmpty (fun e => e.category) (ev :: rest),
            price := firstNonEmpty (fun e => e.price) (ev :: rest) },
          sources := (ev :: rest).map (fun e => ⟨e.source, e.url⟩) }

/-- `deduplicate_events` from `src/build/generate.py`: group by
`(normalized_title, date_only)` in dict insertion order, merge each group,
and sort the result by `date_start`. -/
def deduplicate_events (events : List Ev) : List MEv :=
  List.insertionSort
    (fun a b : MEv => strLeB a.ev.date_start b.ev.date_start = true)
    ((firstOccur (events.map evKey)).map
      (fun k => mergeGroup (groupOf events k)))

/-! ### C9: canonical shape of normalized titles -/

/-- No two adjacent spaces. -/
def singleSpaced : List Char → Bool
  | [] => true
  | [_] => true
  | a :: b :: r => !(a = ' ' && b = ' ') && singleSpaced (b :: r)

theorem mem_of_mem_dropWhile (p : Char → Bool) :
    ∀ (l : List Char) (c : Char), c ∈ l.dropWhile p → c ∈ l
  | [], _, h => h
  | a :: t, c, h => by
      rw [List.dropWhile_cons] at h
      by_cases hp : p a = true
      · rw [if_pos hp] at h
        exact List.mem_cons_of_mem a (mem_of_mem_dropWhile p t c h)
      · rw [if_neg hp] at h
        exact h

theorem mem_of_mem_stripWs (cs : List Char) (c : Char)
    (h : c ∈ stripWs cs) : c ∈ cs := by
  unfold stripWs stripLead at h
  rw [List.mem_reverse] at h
  have h2 := mem_of_mem_dropWhile isSpaceC _ _ h
  rw [List.mem_reverse] at h2
  exact mem_of_mem_dropWhile isSpaceC _ _ h2

theorem keep_space_eq (c : Char) (hk : isKeepC c = true)
    (hs : isSpaceC c = true) : c = ' ' := by
  simp only [isSpaceC, Bool.or_eq_true, decide_eq_true_eq] at hs
  rcases hs with ((((h1 | h1) | h1) | h1) | h1) | h1 <;> subst h1 <;>
    first
    | rfl
    | exact absurd hk (by decide)

theorem keep_not_space (c : Char) (hk : isKeepC c = true) (hne : c ≠ ' ') :
    isSpaceC c = false := by
  cases hsp : isSpaceC c
  · rfl
  · exact absurd (keep_space_eq c hk hsp) hne

theorem lowerC_keep (c : Char) (h : isKeepC c = true) : lowerC c = c := by
  by_cases hA : c = 'Ä'
  · subst hA; exact absurd h (by decide)
  by_cases hO : c = 'Ö'
  · subst hO; exact absurd h (by decide)
  by_cases hU : c = 'Ü'
  · subst hU; exact absurd h (by decide)
  simp only [isKeepC, isDigitC, Bool.or_eq_true, Bool.and_eq_true,
    decide_eq_true_eq] at h
  rcases h with (⟨h1, h2⟩ | ⟨h1, h2⟩) | h1
  · have hcond : ¬((65 ≤ c.toNat && c.toNat ≤ 90) = true) := by
      simp only [Bool.and_eq_true, decide_eq_true_eq, not_and]
      omega
    unfold lowerC
    rw [if_neg hcond, if_neg hA, if_neg hO, if_neg hU]
  · have hcond : ¬((65 ≤ c.toNat && c.toNat ≤ 90) = true) := by
      simp only [Bool.and_eq_true, decide_eq_true_eq, not_and]
      omega
    unfold lowerC
    rw [if_neg hcond, if_neg hA, if_neg hO, if_neg hU]
  · subst h1; decide

theorem nfkdChar_keep (c : Char) (h : isKeepC c = true) : nfkdChar c = [c] := by
  unfold nfkdChar
  split_ifs with h1 h2 h3 h4 h5 h6 h7 h8
  · subst h1; exact absurd h (by decide)
  · subst h2; exact absurd h (by decide)
  · subst h3; exact absurd h (by decide)
  · subst h4; exact absurd h (by decide)
  · subst h5; exact absurd h (by decide)
  · subst h6; exact absurd h (by decide)
  · subst h7; exact absurd h (by decide)
  · subst h8; exact absurd h (by decide)
  · rfl

theorem combiningC_keep (c : Char) (h : isKeepC c = true) :
    combiningC c = false := by
  by_cases hsp : c = ' '
  · subst hsp; decide
  simp only [isKeepC, isDigitC, Bool.or_eq_true, Bool.and_eq_true,
    decide_eq_true_eq] at h
  rcases h with (⟨h1, h2⟩ | ⟨h1, h2⟩) | h1
  · simp only [combiningC]
    have : ¬(768 ≤ c.toNat) := by omega
    simp [this]
  · simp only [combiningC]
    have : ¬(768 ≤ c.toNat) := by omega
    simp [this]
  · exact absurd h1 hsp

theorem subNonAlnumGo_keep :
    ∀ (b : Bool) (cs : List Char) (c : Char),
      c ∈ subNonAlnumGo b cs → isKeepC c = true
  | _, [], _, h => by cases h
  | b, a :: t, c, h => by
      unfold subNonAlnumGo at h
      by_cases hk : isKeepC a = true
      · rw [if_pos hk] at h
        rcases List.mem_cons.mp h with h1 | h1
        · subst h1; exact hk
        · exact subNonAlnumGo_keep false t c h1
      · rw [if_neg hk] at h
        by_cases hb : b = true
        · rw [if_pos hb] at h
          exact subNonAlnumGo_keep true t c h
        · rw [if_neg hb] at h
          rcases List.mem_cons.mp h with h1 | h1
          · subst h1; decide
          · exact subNonAlnumGo_keep true t c h1

theorem collapseWsGo_keep :
    ∀ (b : Bool) (cs : List Char) (c : Char),
      (∀ x ∈ cs, isKeepC x = true) → c ∈ collapseWsGo b cs →
        isKeepC c = true
  | _, [], _, _, h => by cases h
  | b, a :: t, c, hall, h => by
      unfold collapseWsGo at h
      by_cases hs : isSpaceC a = true
      · rw [if_pos hs] at h
        by_cases hb : b = true
        · rw [if_pos hb] at h
          exact collapseWsGo_keep true t c (fun x hx => hall x (by simp [hx])) h
        · rw [if_neg hb] at h
          rcases List.mem_cons.mp h with h1 | h1
          · subst h1; decide
          · exact collapseWsGo_keep true t c
              (fun x hx => hall x (by simp [hx])) h1
      · rw [if_neg hs] at h
        rcases List.mem_cons.mp h with h1 | h1
        · subst h1; exact hall _ (by simp)
        · exact collapseWsGo_keep false t c
            (fun x hx => hall x (by simp [hx])) h1

theorem normalize_title_keep (cs : List Char) :
    ∀ c ∈ _normalize_title cs, isKeepC c = true := by
  intro c hc
  unfold _normalize_title at hc
  have h1 := mem_of_mem_stripWs _ _ hc
  exact collapseWsGo_keep false _ c (fun x hx => subNonAlnumGo_keep false _ x hx) h1

/-! Single-spacing of the collapse output and its preservation by strip. -/

theorem collapseWsGo_true_head (cs : List Char) (x : Char)
    (h : (collapseWsGo true cs).head? = some x) : isSpaceC x = false := by
  induction cs with
  | nil => cases h
  | cons a t ih =>
      unfold collapseWsGo at h
      by_cases hs : isSpaceC a = true
      · rw [if_pos hs, if_pos rfl] at h
        exact ih h
      · rw [if_neg hs] at h
        injection h with h
        subst h
        simpa using hs

theorem singleSpaced_cons (a : Char) (l : List Char)
    (h1 : ∀ x, l.head? = some x → ¬(a = ' ' ∧ x = ' '))
    (h2 : singleSpaced l = true) : singleSpaced (a :: l) = true := by
  cases l with
  | nil => rfl
  | cons b r =>
      unfold singleSpaced
      simp only [Bool.and_eq_true]
      constructor
      · have hne := h1 b rfl
        by_cases ha : a = ' '
        · by_cases hb : b = ' '
          · exact absurd ⟨ha, hb⟩ hne
          · simp [ha, hb]
        · simp [ha]
      · exact h2

theorem collapseWsGo_singleSpaced :
    ∀ (b : Bool) (cs : List Char), singleSpaced (collapseWsGo b cs) = true
  | _, [] => rfl
  | b, a :: t => by
      unfold collapseWsGo
      by_cases hs : isSpaceC a = true
      · rw [if_pos hs]
        by_cases hb : b = true
        · rw [if_pos hb]
          exact collapseWsGo_singleSpaced true t
        · rw [if_neg hb]
          refine singleSpaced_cons ' ' _ (fun x hx => ?_) (collapseWsGo_singleSpaced true t)
          intro ⟨_, hx2⟩
          have hxs := collapseWsGo_true_head t x hx
          rw [hx2] at hxs
          exact absurd hxs (by decide)
      · rw [if_neg hs]
        refine singleSpaced_cons a _ (fun x hx => ?_) (collapseWsGo_singleSpaced false t)
        intro ⟨ha, _⟩
        rw [ha] at hs
        exact hs (by decide)

theorem singleSpaced_tail (a : Char) (l : List Char)
    (h : singleSpaced (a :: l) = true) : singleSpaced l = true := by
  cases l with
  | nil => rfl
  | cons b r =>
      unfold singleSpaced at h
      rw [Bool.and_eq_true] at h
      exact h.2

theorem singleSpaced_dropWhile (p : Char → Bool) :
    ∀ (l : List Char), singleSpaced l = true →
      singleSpaced (l.dropWhile p) = true
  | [], _ => rfl
  | a :: t, h => by
      rw [List.dropWhile_cons]
      by_cases hp : p a = true
      · rw [if_pos hp]
        exact singleSpaced_dropWhile p t (singleSpaced_tail a t h)
      · rw [if_neg hp]
        exact h

theorem singleSpaced_append_left :
    ∀ (l1 l2 : List Char), singleSpaced (l1 ++ l2) = true →
      singleSpaced l1 = true
  | [], _, _ => rfl
  | [a], l2, h => rfl
  | a :: b :: r, l2, h => by
      rw [List.cons_append, List.cons_append] at h
      unfold singleSpaced at h ⊢
      rw [Bool.and_eq_true] at h ⊢
      exact ⟨h.1, singleSpaced_append_left (b :: r) l2 (by
        rw [List.cons_append]
        exact h.2)⟩

/-- The trailing strip produces a prefix: `stripWs cs` plus the dropped
whitespace recovers `stripLead cs`. -/
theorem stripLead_eq_stripWs_append (cs : List Char) :
    stripLead cs = stripWs cs ++
      ((stripLead cs).reverse.takeWhile isSpaceC).reverse := by
  unfold stripWs
  rw [← List.reverse_append, List.takeWhile_append_dropWhile,
    List.reverse_reverse]

theorem head_not_space_dropWhile (l : List Char) (x : Char)
    (h : (l.dropWhile isSpaceC).head? = some x) : isSpaceC x = false := by
  induction l with
  | nil => cases h
  | cons a t ih =>
      rw [List.dropWhile_cons] at h
      by_cases hs : isSpaceC a = true
      · rw [if_pos hs] at h
        exact ih h
      · rw [if_neg hs] at h
        injection h with h
        subst h
        simpa using hs

theorem stripWs_head_not_space (cs : List Char) (x : Char)
    (h : (stripWs cs).head? = some x) : isSpaceC x = false := by
  have hh : (stripLead cs).head? = some x := by
    rw [stripLead_eq_stripWs_append cs]
    cases hsw : stripWs cs with
    | nil => rw [hsw] at h; cases h
    | cons y t =>
        rw [hsw] at h
        exact h
  exact head_not_space_dropWhile cs x hh

theorem stripWs_getLast_not_space (cs : List Char) (x : Char)
    (h : (stripWs cs).getLast? = some x) : isSpaceC x = false := by
  unfold stripWs at h
  rw [← List.head?_reverse, List.reverse_reverse] at h
  exact head_not_space_dropWhile _ x h

theorem stripWs_singleSpaced (cs : List Char)
    (h : singleSpaced cs = true) : singleSpaced (stripWs cs) = true := by
  have h1 : singleSpaced (stripLead cs) = true :=
    singleSpaced_dropWhile isSpaceC cs h
  rw [stripLead_eq_stripWs_append cs] at h1
  exact singleSpaced_append_left _ _ h1

theorem normalize_title_singleSpaced (cs : List Char) :
    singleSpaced (_normalize_title cs) = true := by
  unfold _normalize_title
  exact stripWs_singleSpaced _ (collapseWsGo_singleSpaced false _)

theorem normalize_title_head (cs : List Char) (x : Char)
    (h : (_normalize_title cs).head? = some x) : isSpaceC x = false :=
  stripWs_head_not_space _ x h

theorem normalize_title_getLast (cs : List Char) (x : Char)
    (h : (_normalize_title cs).getLast? = some x) : isSpaceC x = false :=
  stripWs_getLast_not_space _ x h

/-! ### C9: `_normalize_title` is the identity on canonical strings -/

theorem stripWs_id (cs : List Char)
    (hh : ∀ x, cs.head? = some x → isSpaceC x = false)
    (hl : ∀ x, cs.getLast? = some x → isSpaceC x = false) :
    stripWs cs = cs := by
  cases cs with
  | nil => rfl
  | cons a t => exact stripWs_cons_ns a t (hh a rfl) hl

theorem map_id_of (f : Char → Char) :
    ∀ (l : List Char), (∀ c ∈ l, f c = c) → l.map f = l
  | [], _ => rfl
  | a :: t, h => by
      rw [List.map_cons, h a (by simp), map_id_of f t (fun c hc => h c (by simp [hc]))]

theorem nfkd_id : ∀ (l : List Char), (∀ c ∈ l, isKeepC c = true) →
    (l.map nfkdChar).flatten = l
  | [], _ => rfl
  | a :: t, h => by
      rw [List.map_cons, List.flatten_cons, nfkdChar_keep a (h a (by simp)),
        nfkd_id t (fun c hc => h c (by simp [hc]))]
      rfl

theorem filter_id_of (p : Char → Bool) :
    ∀ (l : List Char), (∀ c ∈ l, p c = true) → l.filter p = l
  | [], _ => rfl
  | a :: t, h => by
      rw [List.filter_cons, if_pos (h a (by simp)),
        filter_id_of p t (fun c hc => h c (by simp [hc]))]

theorem subGo_id : ∀ (l : List Char), (∀ c ∈ l, isKeepC c = true) →
    subNonAlnumGo false l = l
  | [], _ => rfl
  | a :: t, h => by
      unfold subNonAlnumGo
      rw [if_pos (h a (by simp)), subGo_id t (fun c hc => h c (by simp [hc]))]

theorem collapseGo_cons_space_false (t : List Char) :
    collapseWsGo false (' ' :: t) = ' ' :: collapseWsGo true t := by
  simp [collapseWsGo, isSpaceC_space]

theorem collapseGo_cons_nonspace (b0 : Bool) (c : Char) (t : List Char)
    (h : isSpaceC c = false) :
    collapseWsGo b0 (c :: t) = c :: collapseWsGo false t := by
  simp [collapseWsGo, h]

theorem collapseGo_false_id :
    ∀ (l : List Char), (∀ c ∈ l, isKeepC c = true) → singleSpaced l = true →
      collapseWsGo false l = l
  | [], _, _ => rfl
  | [a], hk, _ => by
      by_cases hs : isSpaceC a = true
      · have ha := keep_space_eq a (hk a (by simp)) hs
        subst ha
        decide
      · have hs' : isSpaceC a = false := by
          cases h' : isSpaceC a
          · rfl
          · exact absurd h' hs
        rw [collapseGo_cons_nonspace false a [] hs']
        rfl
  | a :: b :: r, hk, hss => by
      have hssr : singleSpaced (b :: r) = true := singleSpaced_tail _ _ hss
      have hkr : ∀ c ∈ b :: r, isKeepC c = true :=
        fun c hc => hk c (by simp [hc])
      have ihr := collapseGo_false_id (b :: r) hkr hssr
      by_cases hs : isSpaceC a = true
      · have ha := keep_space_eq a (hk a (by simp)) hs
        subst ha
        have hbne : b ≠ ' ' := by
          intro hb
          subst hb
          unfold singleSpaced at hss
          rw [Bool.and_eq_true] at hss
          exact absurd hss.1 (by decide)
        have hbs : isSpaceC b = false :=
          keep_not_space b (hkr b (by simp)) hbne
        rw [collapseGo_cons_space_false,
          collapseGo_cons_nonspace true b r hbs]
        rw [collapseGo_cons_nonspace false b r hbs] at ihr
        have hr : collapseWsGo false r = r := by injection ihr
        rw [hr]
      · have hs' : isSpaceC a = false := by
          cases h' : isSpaceC a
          · rfl
          · exact absurd h' hs
        rw [collapseGo_cons_nonspace false a (b :: r) hs', ihr]

theorem normalize_id_of_canonical (l : List Char)
    (hk : ∀ c ∈ l, isKeepC c = true) (hss : singleSpaced l = true)
    (hh : ∀ x, l.head? = some x → isSpaceC x = false)
    (hl : ∀ x, l.getLast? = some x → isSpaceC x = false) :
    _normalize_title l = l := by
  unfold _normalize_title subNonAlnum collapseWs
  rw [map_id_of lowerC l (fun c hc => lowerC_keep c (hk c hc))]
  rw [stripWs_id l hh hl]
  rw [nfkd_id l hk]
  rw [filter_id_of _ l (fun c hc => by
    rw [combiningC_keep c (hk c hc)]
    rfl)]
  rw [subGo_id l hk]
  rw [collapseGo_false_id l hk hss]
  exact stripWs_id l hh hl

/-- C9: title normalization is idempotent, and its output consists only of
lowercase ASCII alphanumerics and single interior spaces, with no leading
or trailing whitespace. -/
theorem C9_normalize_title_idempotent (cs : List Char) :
    _normalize_title (_normalize_title cs) = _normalize_title cs ∧
    (∀ c ∈ _normalize_title cs, isKeepC c = true) ∧
    singleSpaced (_normalize_title cs) = true ∧
    (∀ x, (_normalize_title cs).head? = some x → isSpaceC x = false) ∧
    (∀ x, (_normalize_title cs).getLast? = some x → isSpaceC x = false) :=
  ⟨normalize_id_of_canonical _ (normalize_title_keep cs)
      (normalize_title_singleSpaced cs) (normalize_title_head cs)
      (normalize_title_getLast cs),
    normalize_title_keep cs, normalize_title_singleSpaced cs,
    normalize_title_head cs, normalize_title_getLast cs⟩

/-! ### C1/C2: structure of `deduplicate_events` -/

theorem mem_firstOccurAux {α : Type} [DecidableEq α] :
    ∀ (l seen : List α) (k : α),
      k ∈ firstOccurAux seen l ↔ (k ∈ l ∧ k ∉ seen)
  | [], seen, k => by simp [firstOccurAux]
  | a :: t, seen, k => by
      unfold firstOccurAux
      by_cases ha : a ∈ seen
      · rw [if_pos ha, mem_firstOccurAux t seen k]
        constructor
        · rintro ⟨h1, h2⟩
          exact ⟨by simp [h1], h2⟩
        · rintro ⟨h1, h2⟩
          rcases List.mem_cons.mp h1 with h3 | h3
          · subst h3
            exact absurd ha h2
          · exact ⟨h3, h2⟩
      · rw [if_neg ha, List.mem_cons, mem_firstOccurAux t (a :: seen) k]
        constructor
        · rintro (h1 | ⟨h1, h2⟩)
          · subst h1
            exact ⟨by simp, ha⟩
          · exact ⟨by simp [h1], fun hs => h2 (by simp [hs])⟩
        · rintro ⟨h1, h2⟩
          by_cases hka : k = a
          · exact Or.inl hka
          · rcases List.mem_cons.mp h1 with h3 | h3
            · exact absurd h3 hka
            · refine Or.inr ⟨h3, fun hs => ?_⟩
              rcases List.mem_cons.mp hs with h4 | h4
              · exact hka h4
              · exact h2 h4

theorem mem_firstOccur {α : Type} [DecidableEq α] (l : List α) (k : α) :
    k ∈ firstOccur l ↔ k ∈ l := by
  unfold firstOccur
  rw [mem_firstOccurAux]
  simp

theorem nodup_firstOccurAux {α : Type} [DecidableEq α] :
    ∀ (l seen : List α), (firstOccurAux seen l).Nodup
  | [], seen => by simp [firstOccurAux]
  | a :: t, seen => by
      unfold firstOccurAux
      by_cases ha : a ∈ seen
      · rw [if_pos ha]
        exact nodup_firstOccurAux t seen
      · rw [if_neg ha]
        refine List.Nodup.cons ?_ (nodup_firstOccurAux t (a :: seen))
        intro hmem
        have := (mem_firstOccurAux t (a :: seen) a).mp hmem
        exact this.2 (by simp)

theorem nodup_firstOccur {α : Type} [DecidableEq α] (l : List α) :
    (firstOccur l).Nodup :=
  nodup_firstOccurAux l []

theorem groupOf_all_key (events : List Ev) (k : List Char × String) :
    ∀ e ∈ groupOf events k, evKey e = k := by
  intro e he
  unfold groupOf at he
  rw [List.mem_filter] at he
  exact of_decide_eq_true he.2

theorem groupOf_ne_nil (events : List Ev) (k : List Char × String)
    (hk : k ∈ events.map evKey) : groupOf events k ≠ [] := by
  rw [List.mem_map] at hk
  obtain ⟨e, he, hek⟩ := hk
  have : e ∈ groupOf events k := by
    unfold groupOf
    rw [List.mem_filter]
    exact ⟨he, decide_eq_true hek⟩
  exact List.ne_nil_of_mem this

theorem mergeGroup_key (g : List Ev) (k : List Char × String) (hne : g ≠ [])
    (hall : ∀ e ∈ g, evKey e = k) : mkey (mergeGroup g) = k := by
  cases g with
  | nil => exact absurd rfl hne
  | cons ev rest =>
      have h0 : evKey ev = k := hall ev (by simp)
      simp only [mergeGroup, mkey]
      by_cases hre : rest.isEmpty
      · rw [if_pos hre]
        exact h0
      · rw [if_neg hre]
        exact h0

theorem mergeGroup_sources (g : List Ev) (hne : g ≠ []) :
    (mergeGroup g).sources = g.map (fun e => ⟨e.source, e.url⟩) := by
  cases g with
  | nil => exact absurd rfl hne
  | cons ev rest =>
      simp only [mergeGroup]
      by_cases hre : rest.isEmpty
      · rw [if_pos hre]
        rw [List.isEmpty_iff] at hre
        subst hre
        rfl
      · rw [if_neg hre]

theorem mem_dedup_rep (events : List Ev) (m : MEv)
    (hm : m ∈ deduplicate_events events) :
    ∃ k, k ∈ firstOccur (events.map evKey) ∧
      m = mergeGroup (groupOf events k) := by
  unfold deduplicate_events at hm
  have hperm := List.perm_insertionSort
    (fun a b : MEv => strLeB a.ev.date_start b.ev.date_start = true)
    ((firstOccur (events.map evKey)).map
      (fun k => mergeGroup (groupOf events k)))
  rw [hperm.mem_iff] at hm
  rw [List.mem_map] at hm
  obtain ⟨k, hk, hkm⟩ := hm
  exact ⟨k, hk, hkm.symm⟩

theorem countP_map_key_eq_one {κ : Type} [DecidableEq κ]
    (fmk : MEv → κ) (f : κ → MEv) :
    ∀ (l : List κ), l.Nodup → (∀ k ∈ l, fmk (f k) = k) → ∀ k ∈ l,
      (l.map f).countP (fun m => decide (fmk m = k)) = 1
  | [], _, _, k, hk => by cases hk
  | a :: t, hnd, hkey, k, hk => by
      rw [List.map_cons, List.countP_cons]
      rcases List.mem_cons.mp hk with h1 | h1
      · subst h1
        have hz : (t.map f).countP (fun m => decide (fmk m = k)) = 0 := by
          rw [List.countP_eq_zero]
          intro m hm
          rw [List.mem_map] at hm
          obtain ⟨k', hk', hk'm⟩ := hm
          subst hk'm
          rw [hkey k' (by simp [hk'])]
          have : k' ≠ k := fun he => (List.nodup_cons.mp hnd).1 (he ▸ hk')
          simpa using this
        rw [hz, hkey k (by simp), if_pos (by simp)]
      · have hka : k ≠ a := fun he =>
          (List.nodup_cons.mp hnd).1 (he ▸ h1)
        rw [countP_map_key_eq_one fmk f t (List.nodup_cons.mp hnd).2
          (fun k' hk' => hkey k' (by simp [hk'])) k h1]
        rw [hkey a (by simp)]
        rw [if_neg (by simpa using hka.symm)]

/-- C1: any two event records whose titles normalize to the same string and
whose `date_start` values fall on the same calendar day are merged by
`deduplicate_events` into exactly one output entry for that grouping key,
whose `sources` list has exactly one `{source, url}` entry per group
member, in arrival order. -/
theorem C1_dedup_merges_same_key (events : List Ev) (e1 e2 : Ev)
    (h1 : e1 ∈ events) (_h2 : e2 ∈ events) (_hk12 : evKey e1 = evKey e2) :
    (deduplicate_events events).countP
      (fun m => decide (mkey m = evKey e1)) = 1 ∧
    ∀ m ∈ deduplicate_events events, mkey m = evKey e1 →
      m.sources = (events.filter (fun e => decide (evKey e = evKey e1))).map
        (fun e => ⟨e.source, e.url⟩) := by
  have hkmem : evKey e1 ∈ events.map evKey := List.mem_map.mpr ⟨e1, h1, rfl⟩
  have hkF : evKey e1 ∈ firstOccur (events.map evKey) :=
    (mem_firstOccur _ _).mpr hkmem
  have hnd := nodup_firstOccur (events.map evKey)
  have hkeys : ∀ k' ∈ firstOccur (events.map evKey),
      mkey (mergeGroup (groupOf events k')) = k' := by
    intro k' hk'
    have hk'm : k' ∈ events.map evKey := (mem_firstOccur _ _).mp hk'
    exact mergeGroup_key _ _ (groupOf_ne_nil events k' hk'm)
      (groupOf_all_key events k')
  constructor
  · unfold deduplicate_events
    rw [(List.perm_insertionSort _ _).countP_eq]
    exact countP_map_key_eq_one mkey
      (fun k' => mergeGroup (groupOf events k')) _ hnd hkeys _ hkF
  · intro m hm hkm
    obtain ⟨k', hk', hrep⟩ := mem_dedup_rep events m hm
    have hkk : k' = evKey e1 := by
      rw [← hkm, hrep]
      exact (hkeys k' hk').symm
    subst hkk
    rw [hrep, mergeGroup_sources _
      (groupOf_ne_nil events (evKey e1) ((mem_firstOccur _ _).mp hk'))]
    rfl

def jazzEv1 : Ev :=
  { title := "Jazz Night", date_start := "2026-03-15T20:00:00",
    source := "stereo", url := "https://a" }

def jazzEv2 : Ev :=
  { title := "JAZZ NIGHT!!", date_start := "2026-03-15T19:30:00",
    source := "buo", url := "https://b" }

theorem C1_dedup_merges_same_key_witness :
    evKey jazzEv1 = evKey jazzEv2 ∧
    (deduplicate_events [jazzEv1, jazzEv2]).countP
      (fun m => decide (mkey m = evKey jazzEv1)) = 1 ∧
    ∀ m ∈ deduplicate_events [jazzEv1, jazzEv2], mkey m = evKey jazzEv1 →
      m.sources = [⟨"stereo", "https://a"⟩, ⟨"buo", "https://b"⟩] := by
  have h := C1_dedup_merges_same_key [jazzEv1, jazzEv2] jazzEv1 jazzEv2
    (by simp) (by simp) (by decide)
  refine ⟨by decide, h.1, ?_⟩
  intro m hm hk
  rw [h.2 m hm hk]
  decide

/-! ### C2: characterization of the merge field policy -/

theorem bool_eq_false_of_ne_true {b : Bool} (h : ¬b = true) : b = false := by
  cases hb : b
  · rfl
  · exact absurd hb h

theorem find?_some_decomp (p : Ev → Bool) :
    ∀ (l : List Ev) (w : Ev), l.find? p = some w →
      ∃ pre suf, l = pre ++ w :: suf ∧ p w = true ∧ ∀ e ∈ pre, p e = false
  | [], w, h => by cases h
  | a :: t, w, h => by
      rw [List.find?_cons] at h
      by_cases hp : p a = true
      · rw [hp] at h
        injection h with h
        subst h
        exact ⟨[], t, rfl, hp, by simp⟩
      · rw [bool_eq_false_of_ne_true hp] at h
        obtain ⟨pre, suf, hd, hw, hpre⟩ := find?_some_decomp p t w h
        refine ⟨a :: pre, suf, by rw [List.cons_append, ← hd], hw, ?_⟩
        intro e he
        rcases List.mem_cons.mp he with h1 | h1
        · subst h1
          exact bool_eq_false_of_ne_true hp
        · exact hpre e h1

theorem firstNonEmpty_spec (f : Ev → String) (g : List Ev) :
    (firstNonEmpty f g = "" ∧ ∀ e ∈ g, f e = "") ∨
    ∃ pre suf w, g = pre ++ w :: suf ∧ firstNonEmpty f g = f w ∧
      f w ≠ "" ∧ ∀ e ∈ pre, f e = "" := by
  unfold firstNonEmpty
  cases hf : g.find? (fun e => decide (f e ≠ "")) with
  | none =>
      left
      refine ⟨rfl, fun e he => ?_⟩
      have h1 := List.find?_eq_none.mp hf e he
      simpa using h1
  | some w =>
      right
      obtain ⟨pre, suf, hd, hw, hpre⟩ :=
        find?_some_decomp (fun e => decide (f e ≠ "")) g w hf
      refine ⟨pre, suf, w, hd, rfl, of_decide_eq_true hw, fun e he => ?_⟩
      have h1 := hpre e he
      simpa using h1

theorem maxDesc_spec : ∀ (l : List Ev) (a : Ev),
    ∃ pre suf, a :: l = pre ++ maxDesc a l :: suf ∧
      (∀ e ∈ pre, e.description.length < (maxDesc a l).description.length) ∧
      (∀ e ∈ suf, e.description.length ≤ (maxDesc a l).description.length)
  | [], a => ⟨[], [], rfl, by simp, by simp⟩
  | e :: t, a => by
      have hstep : maxDesc a (e :: t) = maxDesc (pickLonger a e) t := rfl
      by_cases hgt : e.description.length > a.description.length
      · have hae : pickLonger a e = e := by simp [pickLonger, hgt]
        obtain ⟨pre', suf', hdec, hpre, hsuf⟩ := maxDesc_spec t (pickLonger a e)
        rw [hae] at hdec hpre hsuf
        have halt : a.description.length <
            (maxDesc e t).description.length := by
          cases pre' with
          | nil =>
              have hM : maxDesc e t = e := by
                have := hdec
                rw [List.nil_append] at this
                injection this with h1 _
                exact h1.symm
              rw [hM]
              exact hgt
          | cons p0 pr =>
              have hp0 : p0 = e := by
                rw [List.cons_append] at hdec
                injection hdec with h1 _
                exact h1.symm
              have := hpre p0 (by simp)
              rw [hp0] at this
              omega
        refine ⟨a :: pre', suf', ?_, ?_, ?_⟩
        · rw [hstep, hae, List.cons_append, ← hdec]
        · intro x hx
          rw [hstep, hae]
          rcases List.mem_cons.mp hx with h1 | h1
          · subst h1
            exact halt
          · exact hpre x h1
        · intro x hx
          rw [hstep, hae]
          exact hsuf x hx
      · have hae : pickLonger a e = a := by simp [pickLonger, hgt]
        obtain ⟨pre', suf', hdec, hpre, hsuf⟩ := maxDesc_spec t (pickLonger a e)
        rw [hae] at hdec hpre hsuf
        cases pre' with
        | nil =>
            have hM : maxDesc a t = a ∧ suf' = t := by
              have := hdec
              rw [List.nil_append] at this
              injection this with h1 h2
              exact ⟨h1.symm, h2.symm⟩
            refine ⟨[], e :: suf', ?_, by simp, ?_⟩
            · rw [hstep, hae, List.nil_append, hM.1, hM.2]
            · intro x hx
              rw [hstep, hae]
              rcases List.mem_cons.mp hx with h1 | h1
              · subst h1
                rw [hM.1]
                omega
              · exact hsuf x h1
        | cons p0 pr =>
            have hp0 : p0 = a ∧ t = pr ++ maxDesc a t :: suf' := by
              rw [List.cons_append] at hdec
              injection hdec with h1 h2
              exact ⟨h1.symm, h2⟩
            have hpa : a.description.length <
                (maxDesc a t).description.length := by
              have := hpre p0 (by simp)
              rw [hp0.1] at this
              exact this
            refine ⟨a :: e :: pr, suf', ?_, ?_, ?_⟩
            · rw [hstep, hae, List.cons_append, List.cons_append, ← hp0.2]
            · intro x hx
              rw [hstep, hae]
              rcases List.mem_cons.mp hx with h1 | h1
              · subst h1
                exact hpa
              · rcases List.mem_cons.mp h1 with h2 | h2
                · subst h2
                  omega
                · exact hpre x (by simp [h2])
            · intro x hx
              rw [hstep, hae]
              exact hsuf x hx

/-- C2: for every duplicate group of size greater than 1, the merged
record's description is that of the member with the longest description
(ties broken by arrival order); `image_url`, `location`, `category` and
`price` are each the first non-empty value in arrival order (empty if no
member has one); and `title`, `date_start`, `date_end`, `city`, `url`,
`tags` and `source` are copied from the primary (first) record. -/
theorem C2_duplicate_group_merge (events : List Ev) (k : List Char × String)
    (hlen : 2 ≤ (groupOf events k).length) (m : MEv)
    (hm : m ∈ deduplicate_events events) (hkey : mkey m = k) :
    (∃ ev rest, groupOf events k = ev :: rest ∧ rest ≠ [] ∧
      m.ev.title = ev.title ∧ m.ev.date_start = ev.date_start ∧
      m.ev.date_end = ev.date_end ∧ m.ev.city = ev.city ∧
      m.ev.url = ev.url ∧ m.ev.tags = ev.tags ∧ m.ev.source = ev.source) ∧
    (∃ pre suf best, groupOf events k = pre ++ best :: suf ∧
      m.ev.description = best.description ∧
      (∀ e ∈ pre, e.description.length < best.description.length) ∧
      (∀ e ∈ suf, e.description.length ≤ best.description.length)) ∧
    ((m.ev.image_url = "" ∧ ∀ e ∈ groupOf events k, e.image_url = "") ∨
      ∃ pre suf w, groupOf events k = pre ++ w :: suf ∧
        m.ev.image_url = w.image_url ∧ w.image_url ≠ "" ∧
        ∀ e ∈ pre, e.image_url = "") ∧
    ((m.ev.location = "" ∧ ∀ e ∈ groupOf events k, e.location = "") ∨
      ∃ pre suf w, groupOf events k = pre ++ w :: suf ∧
        m.ev.location = w.location ∧ w.location ≠ "" ∧
        ∀ e ∈ pre, e.location = "") ∧
    ((m.ev.category = "" ∧ ∀ e ∈ groupOf events k, e.category = "") ∨
      ∃ pre suf w, groupOf events k = pre ++ w :: suf ∧
        m.ev.category = w.category ∧ w.category ≠ "" ∧
        ∀ e ∈ pre, e.category = "") ∧
    ((m.ev.price = "" ∧ ∀ e ∈ groupOf events k, e.price = "") ∨
      ∃ pre suf w, groupOf events k = pre ++ w :: suf ∧
        m.ev.price = w.price ∧ w.price ≠ "" ∧
        ∀ e ∈ pre, e.price = "") := by
  obtain ⟨k', hk', hrep⟩ := mem_dedup_rep events m hm
  have hk'keys : mkey (mergeGroup (groupOf events k')) = k' :=
    mergeGroup_key _ _
      (groupOf_ne_nil _ _ ((mem_firstOccur _ _).mp hk'))
      (groupOf_all_key _ _)
  have hkk : k' = k := by
    rw [← hkey, hrep]
    exact hk'keys.symm
  subst hkk
  cases hg : groupOf events k' with
  | nil => rw [hg] at hlen; simp at hlen
  | cons ev rest =>
      have hrest : rest ≠ [] := by
        intro hnil
        rw [hg, hnil] at hlen
        simp at hlen
      have hre : rest.isEmpty = false := by
        cases rest with
        | nil => exact absurd rfl hrest
        | cons r0 rt => rfl
      have hmrg : m = mergeGroup (ev :: rest) := by rw [hrep, hg]
      have htitle : m.ev.title = ev.title := by
        rw [hmrg]; simp [mergeGroup, hre]
      have hdate : m.ev.date_start = ev.date_start := by
        rw [hmrg]; simp [mergeGroup, hre]
      have hdateE : m.ev.date_end = ev.date_end := by
        rw [hmrg]; simp [mergeGroup, hre]
      have hcity : m.ev.city = ev.city := by
        rw [hmrg]; simp [mergeGroup, hre]
      have hurl : m.ev.url = ev.url := by
        rw [hmrg]; simp [mergeGroup, hre]
      have htags : m.ev.tags = ev.tags := by
        rw [hmrg]; simp [mergeGroup, hre]
      have hsrc : m.ev.source = ev.source := by
        rw [hmrg]; simp [mergeGroup, hre]
      have hdesc : m.ev.description = (maxDesc ev rest).description := by
        rw [hmrg]; simp [mergeGroup, hre]
      have himg : m.ev.image_url =
          firstNonEmpty (fun e => e.image_url) (ev :: rest) := by
        rw [hmrg]; simp [mergeGroup, hre]
      have hloc : m.ev.location =
          firstNonEmpty (fun e => e.location) (ev :: rest) := by
        rw [hmrg]; simp [mergeGroup, hre]
      have hcat : m.ev.category =
          firstNonEmpty (fun e => e.category) (ev :: rest) := by
        rw [hmrg]; simp [mergeGroup, hre]
      have hpr : m.ev.price =
          firstNonEmpty (fun e => e.price) (ev :: rest) := by
        rw [hmrg]; simp [mergeGroup, hre]
      refine ⟨⟨ev, rest, rfl, hrest, htitle, hdate, hdateE, hcity, hurl,
        htags, hsrc⟩, ?_, ?_, ?_, ?_, ?_⟩
      · obtain ⟨pre, suf, hdec, hpre, hsuf⟩ := maxDesc_spec rest ev
        exact ⟨pre, suf, maxDesc ev rest, hdec, hdesc, hpre, hsuf⟩
      · rcases firstNonEmpty_spec (fun e => e.image_url) (ev :: rest) with
          ⟨hv, hall⟩ | ⟨pre, suf, w, hdec, hv, hne', hpre⟩
        · exact Or.inl ⟨himg.trans hv, hall⟩
        · exact Or.inr ⟨pre, suf, w, hdec, himg.trans hv, hne', hpre⟩
      · rcases firstNonEmpty_spec (fun e => e.location) (ev :: rest) with
          ⟨hv, hall⟩ | ⟨pre, suf, w, hdec, hv, hne', hpre⟩
        · exact Or.inl ⟨hloc.trans hv, hall⟩
        · exact Or.inr ⟨pre, suf, w, hdec, hloc.trans hv, hne', hpre⟩
      · rcases firstNonEmpty_spec (fun e => e.category) (ev :: rest) with
          ⟨hv, hall⟩ | ⟨pre, suf, w, hdec, hv, hne', hpre⟩
        · exact Or.inl ⟨hcat.trans hv, hall⟩
        · exact Or.inr ⟨pre, suf, w, hdec, hcat.trans hv, hne', hpre⟩
      · rcases firstNonEmpty_spec (fun e => e.price) (ev :: rest) with
          ⟨hv, hall⟩ | ⟨pre, suf, w, hdec, hv, hne', hpre⟩
        · exact Or.inl ⟨hpr.trans hv, hall⟩
        · exact Or.inr ⟨pre, suf, w, hdec, hpr.trans hv, hne', hpre⟩

def dEv1 : Ev :=
  { title := "Jazz Night", date_start := "2026-03-15T20:00:00",
    description := "short", category := "Party", url := "https://a",
    source := "stereo" }

def dEv2 : Ev :=
  { title := "JAZZ NIGHT!!", date_start := "2026-03-15T19:30:00",
    description := "a much longer description text",
    location := "Stereo Bielefeld", image_url := "https://img",
    price := "10 Euro", url := "https://b", source := "buo" }

def dMerged : MEv := mergeGroup (groupOf [dEv1, dEv2] (evKey dEv1))

theorem C2_duplicate_group_merge_witness :
    2 ≤ (groupOf [dEv1, dEv2] (evKey dEv1)).length ∧
    dMerged ∈ deduplicate_events [dEv1, dEv2] ∧
    mkey dMerged = evKey dEv1 ∧
    dMerged.ev.description = "a much longer description text" ∧
    dMerged.ev.category = "Party" ∧
    dMerged.ev.location = "Stereo Bielefeld" ∧
    ((∃ ev rest, groupOf [dEv1, dEv2] (evKey dEv1) = ev :: rest ∧
        rest ≠ [] ∧ dMerged.ev.title = ev.title ∧
        dMerged.ev.date_start = ev.date_start ∧
        dMerged.ev.date_end = ev.date_end ∧ dMerged.ev.city = ev.city ∧
        dMerged.ev.url = ev.url ∧ dMerged.ev.tags = ev.tags ∧
        dMerged.ev.source = ev.source) ∧
      (∃ pre suf best, groupOf [dEv1, dEv2] (evKey dEv1) =
          pre ++ best :: suf ∧
        dMerged.ev.description = best.description ∧
        (∀ e ∈ pre, e.description.length < best.description.length) ∧
        (∀ e ∈ suf, e.description.length ≤ best.description.length)) ∧
      ((dMerged.ev.image_url = "" ∧
          ∀ e ∈ groupOf [dEv1, dEv2] (evKey dEv1), e.image_url = "") ∨
        ∃ pre suf w, groupOf [dEv1, dEv2] (evKey dEv1) = pre ++ w :: suf ∧
          dMerged.ev.image_url = w.image_url ∧ w.image_url ≠ "" ∧
          ∀ e ∈ pre, e.image_url = "") ∧
      ((dMerged.ev.location = "" ∧
          ∀ e ∈ groupOf [dEv1, dEv2] (evKey dEv1), e.location = "") ∨
        ∃ pre suf w, groupOf [dEv1, dEv2] (evKey dEv1) = pre ++ w :: suf ∧
          dMerged.ev.location = w.location ∧ w.location ≠ "" ∧
          ∀ e ∈ pre, e.location = "") ∧
      ((dMerged.ev.category = "" ∧
          ∀ e ∈ groupOf [dEv1, dEv2] (evKey dEv1), e.category = "") ∨
        ∃ pre suf w, groupOf [dEv1, dEv2] (evKey dEv1) = pre ++ w :: suf ∧
          dMerged.ev.category = w.category ∧ w.category ≠ "" ∧
          ∀ e ∈ pre, e.category = "") ∧
      ((dMerged.ev.price = "" ∧
          ∀ e ∈ groupOf [dEv1, dEv2] (evKey dEv1), e.price = "") ∨
        ∃ pre suf w, groupOf [dEv1, dEv2] (evKey dEv1) = pre ++ w :: suf ∧
          dMerged.ev.price = w.price ∧ w.price ≠ "" ∧
          ∀ e ∈ pre, e.price = "")) :=
  ⟨by decide, by decide, by decide, by decide, by decide, by decide,
    C2_duplicate_group_merge [dEv1, dEv2] (evKey dEv1) (by decide) dMerged
      (by decide) (by decide)⟩

/-! ### `src/scrapers/database.py`: schema, upsert, future query -/

/-- The scraper-side `Event` dataclass from `src/scrapers/base.py`. -/
structure Event where
  title : String
  date_start : PyDT
  source : String
  url : String
  description : String := ""
  date_end : Option PyDT := none
  location : String := ""
  city : String := "Bielefeld"
  category : String := ""
  image_url : String := ""
  price : String := ""
  tags : List String := []
deriving DecidableEq, Repr

/-- Six-digit zero-padded rendering (microseconds). -/
def pad6 (n : Nat) : List Char :=
  [dChar (n / 100000), dChar (n / 10000), dChar (n / 1000), dChar (n / 100),
   dChar (n / 10), dChar n]

/-- `datetime.isoformat()`. -/
def isoformat (dt : PyDT) : String :=
  String.mk (pad4 dt.year ++ '-' :: (pad2 dt.month ++ '-' :: (pad2 dt.day ++
    'T' :: (pad2 dt.hour ++ ':' :: (pad2 dt.minute ++ ':' :: (pad2 dt.second ++
      (if dt.micro = 0 then [] else '.' :: pad6 dt.micro)))))))

/-- The stored table: rows (reusing `Ev`, the row shape of `events`) plus
the AUTOINCREMENT counter. -/
structure DBState where
  rows : List Ev
  nextId : Nat
deriving DecidableEq, Repr

/-- The natural key of the `UNIQUE(title, date_start, source)` constraint. -/
def rowKey (r : Ev) : String × String × String := (r.title, r.date_start, r.source)

/-- The key the insert of `upsert_events` would occupy. -/
def keyOf (e : Event) : String × String × String :=
  (e.title, isoformat e.date_start, e.source)

def rowMatches (e : Event) (r : Ev) : Bool := decide (rowKey r = keyOf e)

/-- A freshly inserted row. -/
def newRow (e : Event) (now : String) (id : Nat) : Ev :=
  { id := id, title := e.title, date_start := isoformat e.date_start,
    date_end := e.date_end.map isoformat, description := e.description,
    location := e.location, city := e.city, category := e.category,
    image_url := e.image_url, url := e.url, price := e.price,
    source := e.source, tags := String.intercalate "," e.tags,
    scraped_at := now }

/-- The `ON CONFLICT … DO UPDATE SET` assignment list. -/
def updateRow (e : Event) (now : String) (r : Ev) : Ev :=
  { r with
    description := e.description,
    location := e.location,
    category := e.category,
    image_url := e.image_url,
    url := e.url,
    price := e.price,
    tags := String.intercalate "," e.tags,
    scraped_at := now }

/-- One `INSERT … ON CONFLICT(title, date_start, source) DO UPDATE` against
the store. -/
def applyUpsert (db : DBState) (e : Event) (now : String) : DBState :=
  if db.rows.any (rowMatches e) then
    { db with
      rows := db.rows.map (fun r => if rowMatches e r then updateRow e now r else r) }
  else
    { rows := db.rows ++ [newRow e now db.nextId], nextId := db.nextId + 1 }

/-- The per-record loop of `upsert_events`: `fail i` models a
`sqlite3.Error` raised while persisting the `i`-th record, which is caught
and skipped; successes are counted. -/
def upsertGo (fail : Nat → Bool) (now : String) :
    Nat → DBState → List Event → Nat × DBState
  | _, db, [] => (0, db)
  | i, db, e :: es =>
      if fail i then upsertGo fail now (i + 1) db es
      else
        let db' := applyUpsert db e now
        let r := upsertGo fail now (i + 1) db' es
        (r.1 + 1, r.2)

/-- `upsert_events` from `src/scrapers/database.py`. -/
def upsert_events (fail : Nat → Bool) (db : DBState) (events : List Event)
    (now : String) : Nat × DBState :=
  upsertGo fail now 0 db events

/-- `get_all_events`: all rows with `date_start >= date('now')`, ordered by
`date_start`. -/
def get_all_events (db : DBState) (today : String) : List Ev :=
  List.insertionSort (fun a b : Ev => strLeB a.date_start b.date_start = true)
    (db.rows.filter (fun r => strLeB today r.date_start))

/-! ### C7: per-record atomicity of the upsert loop -/

theorem upsertGo_index_irrel (now : String) :
    ∀ (es : List Event) (j j' : Nat) (db : DBState),
      upsertGo (fun _ => false) now j db es =
        upsertGo (fun _ => false) now j' db es
  | [], _, _, _ => rfl
  | e :: es, j, j', db => by
      unfold upsertGo
      simp only [if_neg (by simp : ¬false = true)]
      rw [upsertGo_index_irrel now es (j + 1) (j' + 1) (applyUpsert db e now)]

theorem upsertGo_spec (fail : Nat → Bool) (now : String) :
    ∀ (es : List Event) (i : Nat) (db : DBState),
      (upsertGo fail now i db es).1 =
        ((List.range' i es.length).filter (fun j => !fail j)).length ∧
      (upsertGo fail now i db es).2 =
        (upsertGo (fun _ => false) now 0 db
          (((es.enumFrom i).filter (fun p => !fail p.1)).map Prod.snd)).2
  | [], i, db => by simp [upsertGo, List.enumFrom]
  | e :: es, i, db => by
      cases hf : fail i with
      | true =>
          obtain ⟨ih1, ih2⟩ := upsertGo_spec fail now es (i + 1) db
          constructor
          · simpa [upsertGo, hf, List.range'_succ, List.filter_cons] using ih1
          · simpa [upsertGo, hf, List.enumFrom, List.filter_cons] using ih2
      | false =>
          obtain ⟨ih1, ih2⟩ := upsertGo_spec fail now es (i + 1) (applyUpsert db e now)
          constructor
          · simp [upsertGo, hf, List.range'_succ, List.filter_cons, ih1]
          · rw [show (upsertGo fail now i db (e :: es)).2 =
                  (upsertGo fail now (i + 1) (applyUpsert db e now) es).2 by
                simp [upsertGo, hf]]
            rw [ih2]
            simp only [List.enumFrom, List.filter_cons, hf, Bool.not_false,
              if_true, List.map_cons]
            rw [show (upsertGo (fun _ => false) now 0 db
                  (e :: ((es.enumFrom (i + 1)).filter
                    (fun p => !fail p.1)).map Prod.snd)).2 =
                (upsertGo (fun _ => false) now 1 (applyUpsert db e now)
                  (((es.enumFrom (i + 1)).filter
                    (fun p => !fail p.1)).map Prod.snd)).2 by
              simp [upsertGo]]
            rw [upsertGo_index_irrel now _ 1 0]

/-- C7: `upsert_events` is per-record atomic: a persistence failure on any
single record (modeled by the oracle `fail` on the record's batch index) is
caught and does not abort the batch — the resulting store is exactly the one
obtained by upserting, without failures, the subsequence of records whose
index did not fail — and the returned count equals the number of
successfully processed records, excluding the failed ones. -/
theorem C7_upsert_per_record_atomic (fail : Nat → Bool) (db : DBState)
    (events : List Event) (now : String) :
    (upsert_events fail db events now).1 =
      ((List.range events.length).filter (fun j => !fail j)).length ∧
    (upsert_events fail db events now).2 =
      (upsert_events (fun _ => false) db
        (((events.enumFrom 0).filter (fun p => !fail p.1)).map Prod.snd) now).2 := by
  obtain ⟨h1, h2⟩ := upsertGo_spec fail now events 0 db
  refine ⟨?_, ?_⟩
  · rw [upsert_events, h1, List.range_eq_range']
  · rw [upsert_events, h2, upsert_events]

/-! ### C6: upsert idempotence on the natural key -/

theorem rowMatches_iff (e : Event) (r : Ev) :
    rowMatches e r = true ↔ rowKey r = keyOf e := by
  simp [rowMatches]

theorem rowMatches_updateRow (e e' : Event) (now : String) (r : Ev) :
    rowMatches e (updateRow e' now r) = rowMatches e r := rfl

theorem rowKey_newRow (e : Event) (now : String) (id : Nat) :
    rowKey (newRow e now id) = keyOf e := rfl

theorem rowMatches_newRow (e : Event) (now : String) (id : Nat) :
    rowMatches e (newRow e now id) = true := by
  simp [rowMatches, rowKey, newRow, keyOf]

theorem countP_map_eq (p : Ev → Bool) (f : Ev → Ev) :
    ∀ l : List Ev, (∀ a, p (f a) = p a) → (l.map f).countP p = l.countP p
  | [], _ => rfl
  | a :: l, h => by
      rw [List.map_cons, List.countP_cons, List.countP_cons, h a,
        countP_map_eq p f l h]

theorem countP_matches_le_one (e : Event) :
    ∀ rows : List Ev,
      List.Pairwise (fun a b : Ev => rowKey a ≠ rowKey b) rows →
      rows.countP (rowMatches e) ≤ 1
  | [], _ => by simp
  | r :: rs, h => by
      obtain ⟨hhead, htail⟩ := List.pairwise_cons.mp h
      rw [List.countP_cons]
      by_cases hm : rowMatches e r = true
      · have hz : rs.countP (rowMatches e) = 0 := by
          rw [List.countP_eq_zero]
          intro b hb hmb
          exact hhead b hb (((rowMatches_iff e r).mp hm).trans
            ((rowMatches_iff e b).mp hmb).symm)
        simp [hz, hm]
      · have ih := countP_matches_le_one e rs htail
        rw [if_neg hm]
        omega

theorem pairwise_keys_map_update (e : Event) (now : String) (rows : List Ev)
    (h : List.Pairwise (fun a b : Ev => rowKey a ≠ rowKey b) rows) :
    List.Pairwise (fun a b : Ev => rowKey a ≠ rowKey b)
      (rows.map (fun r => if rowMatches e r then updateRow e now r else r)) := by
  refine h.map _ ?_
  intro a b hab
  have ka : rowKey (if rowMatches e a then updateRow e now a else a) = rowKey a := by
    by_cases hm : rowMatches e a = true
    · rw [if_pos hm]; rfl
    · rw [if_neg hm]
  have kb : rowKey (if rowMatches e b then updateRow e now b else b) = rowKey b := by
    by_cases hm : rowMatches e b = true
    · rw [if_pos hm]; rfl
    · rw [if_neg hm]
  rw [ka, kb]
  exact hab

theorem pairwise_keys_append_new (e : Event) (now : String) (id : Nat)
    (rows : List Ev)
    (h : List.Pairwise (fun a b : Ev => rowKey a ≠ rowKey b) rows)
    (hna : ¬rows.any (rowMatches e) = true) :
    List.Pairwise (fun a b : Ev => rowKey a ≠ rowKey b)
      (rows ++ [newRow e now id]) := by
  rw [List.pairwise_append]
  refine ⟨h, List.pairwise_singleton _ _, ?_⟩
  intro a ha b hb
  simp only [List.mem_singleton] at hb
  subst hb
  intro hk
  rw [rowKey_newRow] at hk
  exact hna (List.any_eq_true.mpr ⟨a, ha, (rowMatches_iff e a).mpr hk⟩)

theorem applyUpsert_of_match (db : DBState) (e : Event) (now : String)
    (h : db.rows.any (rowMatches e) = true) :
    (applyUpsert db e now).rows =
      db.rows.map (fun r => if rowMatches e r then updateRow e now r else r) := by
  simp [applyUpsert, h]

theorem applyUpsert_pairwise (db : DBState) (e : Event) (now : String)
    (hu : List.Pairwise (fun a b : Ev => rowKey a ≠ rowKey b) db.rows) :
    List.Pairwise (fun a b : Ev => rowKey a ≠ rowKey b)
      (applyUpsert db e now).rows := by
  by_cases h : db.rows.any (rowMatches e) = true
  · rw [applyUpsert_of_match db e now h]
    exact pairwise_keys_map_update e now db.rows hu
  · simp only [applyUpsert, if_neg h]
    exact pairwise_keys_append_new e now db.nextId db.rows hu h

theorem applyUpsert_countP_one (db : DBState) (e : Event) (now : String)
    (hu : List.Pairwise (fun a b : Ev => rowKey a ≠ rowKey b) db.rows) :
    (applyUpsert db e now).rows.countP (rowMatches e) = 1 := by
  by_cases h : db.rows.any (rowMatches e) = true
  · rw [applyUpsert_of_match db e now h]
    rw [countP_map_eq (rowMatches e) _ db.rows (fun a => by
      by_cases hm : rowMatches e a = true
      · rw [if_pos hm, rowMatches_updateRow]
      · rw [if_neg hm])]
    have hle := countP_matches_le_one e db.rows hu
    have hpos : 0 < db.rows.countP (rowMatches e) := by
      rw [List.countP_pos_iff]
      obtain ⟨a, ha, hpa⟩ := List.any_eq_true.mp h
      exact ⟨a, ha, hpa⟩
    omega
  · have h0 : db.rows.countP (rowMatches e) = 0 := by
      rw [List.countP_eq_zero]
      intro a ha hpa
      exact h (List.any_eq_true.mpr ⟨a, ha, hpa⟩)
    simp only [applyUpsert, if_neg h]
    rw [List.countP_append, h0, List.countP_cons, rowMatches_newRow]
    rfl

theorem upsert_single (db : DBState) (e : Event) (now : String) :
    (upsert_events (fun _ => false) db [e] now).2 = applyUpsert db e now := rfl

/-- C6: the upsert is idempotent on the natural key
`(title, date_start, source)`: starting from a store whose rows have
pairwise distinct keys, upserting the same event twice leaves the row count
of the first upsert unchanged, keeps exactly one stored row on the event's
key, updates the mutable fields (description, location, category, image_url,
url, price, tags) of that row in place and refreshes `scraped_at` to the
second run's timestamp, and leaves the count of rows returned by the
future-events query (`get_all_events`) unchanged. -/
theorem C6_upsert_idempotent (db db1 db2 : DBState) (e : Event)
    (now1 now2 today : String)
    (hu : List.Pairwise (fun a b : Ev => rowKey a ≠ rowKey b) db.rows)
    (h1 : db1 = (upsert_events (fun _ => false) db [e] now1).2)
    (h2 : db2 = (upsert_events (fun _ => false) db1 [e] now2).2) :
    db2.rows.length = db1.rows.length ∧
    db2.rows.countP (rowMatches e) = 1 ∧
    (∀ r ∈ db2.rows, rowMatches e r = true →
      r.description = e.description ∧ r.location = e.location ∧
      r.category = e.category ∧ r.image_url = e.image_url ∧
      r.url = e.url ∧ r.price = e.price ∧
      r.tags = String.intercalate "," e.tags ∧ r.scraped_at = now2) ∧
    (get_all_events db2 today).length = (get_all_events db1 today).length := by
  rw [upsert_single] at h1 h2
  have hu1 : List.Pairwise (fun a b : Ev => rowKey a ≠ rowKey b) db1.rows := by
    rw [h1]; exact applyUpsert_pairwise db e now1 hu
  have hc1 : db1.rows.countP (rowMatches e) = 1 := by
    rw [h1]; exact applyUpsert_countP_one db e now1 hu
  have hany : db1.rows.any (rowMatches e) = true := by
    rw [List.any_eq_true]
    have hpos : 0 < db1.rows.countP (rowMatches e) := by rw [hc1]; exact Nat.one_pos
    obtain ⟨a, ha, hpa⟩ := List.countP_pos_iff.mp hpos
    exact ⟨a, ha, hpa⟩
  have hrows2 : db2.rows =
      db1.rows.map (fun r => if rowMatches e r then updateRow e now2 r else r) := by
    rw [h2]; exact applyUpsert_of_match db1 e now2 hany
  have hptK : ∀ a : Ev, rowMatches e
      (if rowMatches e a then updateRow e now2 a else a) = rowMatches e a := by
    intro a
    by_cases hm : rowMatches e a = true
    · rw [if_pos hm, rowMatches_updateRow]
    · rw [if_neg hm]
  have hptD : ∀ a : Ev, (fun r : Ev => strLeB today r.date_start)
      (if rowMatches e a then updateRow e now2 a else a) =
      (fun r : Ev => strLeB today r.date_start) a := by
    intro a
    by_cases hm : rowMatches e a = true
    · rw [if_pos hm]; rfl
    · rw [if_neg hm]
  refine ⟨?_, ?_, ?_, ?_⟩
  · rw [hrows2, List.length_map]
  · rw [hrows2, countP_map_eq (rowMatches e) _ db1.rows hptK, hc1]
  · intro r hr hm
    rw [hrows2] at hr
    obtain ⟨a, _, rfl⟩ := List.mem_map.mp hr
    by_cases hma : rowMatches e a = true
    · simp only [if_pos hma]
      exact ⟨rfl, rfl, rfl, rfl, rfl, rfl, rfl, rfl⟩
    · rw [if_neg hma] at hm
      exact absurd hm hma
  · rw [get_all_events, get_all_events,
      (List.perm_insertionSort
        (fun a b : Ev => strLeB a.date_start b.date_start = true) _).length_eq,
      (List.perm_insertionSort
        (fun a b : Ev => strLeB a.date_start b.date_start = true) _).length_eq,
      ← List.countP_eq_length_filter, ← List.countP_eq_length_filter,
      hrows2, countP_map_eq _ _ db1.rows hptD]

def wEvent : Event :=
  { title := "Jazz Night", date_start := ⟨2026, 3, 15, 20, 0, 0, 0⟩,
    source := "stereo", url := "https://a", description := "d1" }

def wDB : DBState := ⟨[], 1⟩

def wDB1 : DBState :=
  (upsert_events (fun _ => false) wDB [wEvent] "2026-01-01T00:00:00").2

def wDB2 : DBState :=
  (upsert_events (fun _ => false) wDB1 [wEvent] "2026-01-02T00:00:00").2

theorem C6_upsert_idempotent_witness :
    wDB2.rows.length = wDB1.rows.length ∧
    wDB2.rows.countP (rowMatches wEvent) = 1 ∧
    (∀ r ∈ wDB2.rows, rowMatches wEvent r = true →
      r.description = wEvent.description ∧ r.location = wEvent.location ∧
      r.category = wEvent.category ∧ r.image_url = wEvent.image_url ∧
      r.url = wEvent.url ∧ r.price = wEvent.price ∧
      r.tags = String.intercalate "," wEvent.tags ∧
      r.scraped_at = "2026-01-02T00:00:00") ∧
    (get_all_events wDB2 "2026-01-01").length =
      (get_all_events wDB1 "2026-01-01").length :=
  C6_upsert_idempotent wDB wDB1 wDB2 wEvent
    "2026-01-01T00:00:00" "2026-01-02T00:00:00" "2026-01-01"
    List.Pairwise.nil rfl rfl

/-! ### `src/scrapers/nw_events.py`: `RE_INFO_BOX` and `_parse_info_box`

The pattern
`(?:Montag|…|Sonntag)[,\s]+(\d{1,2})\.(\d{1,2})\.[,\s]+(\d{1,2})(?:\.(\d{2}))?\s*Uhr[,\s]+([^,;.]+)[,\s]+([^,;.\n]+?)\s*[;.\n]`
(IGNORECASE) is hand-compiled: every greedy (`X+`, `X*`) and lazy (`X+?`)
quantifier whose choices interact with what follows is compiled in
continuation-passing style with the regex engine's exact preference order
(greedy: longest first; lazy: shortest first); quantifier splits that are
provably deterministic on their surrounding character classes
(digits against `[,\s]`, `\.` against `\s`) keep the direct form. -/

def isCommaWsC (c : Char) : Bool := c = ',' || isSpaceC c

/-- The venue class `[^,;.]`. -/
def isVenueC (c : Char) : Bool := !(c = ',' || c = ';' || c = '.')

/-- The city class `[^,;.\n]`. -/
def isCityC (c : Char) : Bool := !(c = ',' || c = ';' || c = '.' || c = '\n')

/-- Case-insensitive literal match (pattern given in lowercase). -/
def ciPrefix : List Char → List Char → Option (List Char)
  | [], cs => some cs
  | _ :: _, [] => none
  | p :: ps, c :: cs => if lowerC c = p then ciPrefix ps cs else none

def weekdayNames : List (List Char) :=
  [String.data "montag", String.data "dienstag", String.data "mittwoch",
   String.data "donnerstag", String.data "freitag", String.data "samstag",
   String.data "sonntag"]

/-- The weekday alternation (first alternative that matches wins). -/
def matchWeekday (cs : List Char) : Option (List Char) :=
  weekdayNames.findSome? (fun w => ciPrefix w cs)

/-- Greedy `X*` over class `cl`, with full backtracking into the
continuation: the longest consumption that lets `cont` succeed wins. -/
def starGo {β : Type} (cl : Char → Bool) (cont : List Char → Option β) :
    List Char → Option β
  | [] => cont []
  | c :: rest =>
      if cl c then
        match starGo cl cont rest with
        | some r => some r
        | none => cont (c :: rest)
      else cont (c :: rest)

/-- Greedy `X+`: one required character, then greedy `X*`. -/
def plusGo {β : Type} (cl : Char → Bool) (cont : List Char → Option β) :
    List Char → Option β
  | [] => none
  | c :: rest => if cl c then starGo cl cont rest else none

/-- Greedy capturing `(X+)` (continuation of `plusCap`): longest capture
whose continuation succeeds, captured run returned alongside. -/
def plusCapGo {β : Type} (cl : Char → Bool) (cont : List Char → Option β)
    (acc : List Char) : List Char → Option (List Char × β)
  | [] => (cont []).map (fun b => (acc.reverse, b))
  | c :: rest =>
      if cl c then
        match plusCapGo cl cont (c :: acc) rest with
        | some r => some r
        | none => (cont (c :: rest)).map (fun b => (acc.reverse, b))
      else (cont (c :: rest)).map (fun b => (acc.reverse, b))

def plusCap {β : Type} (cl : Char → Bool) (cont : List Char → Option β) :
    List Char → Option (List Char × β)
  | [] => none
  | c :: rest => if cl c then plusCapGo cl cont [c] rest else none

/-- Lazy capturing `(X+?)` (continuation of `lazyCap`): shortest capture
whose continuation succeeds. -/
def lazyCapGo {β : Type} (cl : Char → Bool) (cont : List Char → Option β)
    (acc : List Char) : List Char → Option (List Char × β)
  | [] => (cont []).map (fun b => (acc.reverse, b))
  | c :: rest =>
      match cont (c :: rest) with
      | some b => some (acc.reverse, b)
      | none => if cl c then lazyCapGo cl cont (c :: acc) rest else none

def lazyCap {β : Type} (cl : Char → Bool) (cont : List Char → Option β) :
    List Char → Option (List Char × β)
  | [] => none
  | c :: rest => if cl c then lazyCapGo cl cont [c] rest else none

/-- `\s*Uhr` (IGNORECASE): `\s` is disjoint from `u`/`U`, so the star is
deterministic. -/
def wsUhr (cs : List Char) : Option (List Char) :=
  starGo isSpaceC (fun r => ciPrefix (String.data "uhr") r) cs

/-- `(?:\.(\d{2}))?\s*Uhr`: the optional group is tried first; if it fails
(or its continuation does) the group is skipped. -/
def afterHour (cs : List Char) : Option (Nat × List Char) :=
  match (match cs with
         | '.' :: r1 =>
             match readExactDigits 2 0 r1 with
             | some (mi, r2) => (wsUhr r2).map (fun r3 => (mi, r3))
             | none => none
         | _ => none : Option (Nat × List Char)) with
  | some res => some res
  | none => (wsUhr cs).map (fun r3 => ((0 : Nat), r3))

/-- `(\d{1,2})(?:\.(\d{2}))?\s*Uhr`: two-digit hour first, one-digit
backtrack second. -/
def hourTail (cs : List Char) : Option (Nat × Nat × List Char) :=
  match cs with
  | c1 :: c2 :: r =>
      if isDigitC c1 then
        if isDigitC c2 then
          match afterHour r with
          | some (mi, r2) => some (10 * digitVal c1 + digitVal c2, mi, r2)
          | none => (afterHour (c2 :: r)).map (fun p => (digitVal c1, p.1, p.2))
        else (afterHour (c2 :: r)).map (fun p => (digitVal c1, p.1, p.2))
      else none
  | [c1] =>
      if isDigitC c1 then (afterHour []).map (fun p => (digitVal c1, p.1, p.2))
      else none
  | [] => none

/-- `\s*[;.\n]` after the city group. -/
def stopTail (cs : List Char) : Option (List Char) :=
  starGo isSpaceC (fun r =>
    match r with
    | c :: rest => if c = ';' || c = '.' || c = '\n' then some rest else none
    | [] => none) cs

/-- `[,\s]+([^,;.\n]+?)\s*[;.\n]`. -/
def cityTail (cs : List Char) : Option (List Char × List Char) :=
  plusGo isCommaWsC (lazyCap isCityC stopTail) cs

/-- `[,\s]+([^,;.]+)[,\s]+([^,;.\n]+?)\s*[;.\n]`. -/
def venueTail (cs : List Char) : Option (List Char × List Char × List Char) :=
  plusGo isCommaWsC (plusCap isVenueC cityTail) cs

/-- A match of `RE_INFO_BOX` (the integer groups already converted by
`int`, as `_parse_info_box` does). -/
structure IBMatch where
  day : Nat
  month : Nat
  hour : Nat
  minute : Nat
  venue : List Char
  city : List Char
deriving DecidableEq, Repr

/-- `RE_INFO_BOX` tried at the head of `cs`; on success also returns the
text after the match (where `finditer` resumes). -/
def matchInfoBoxAt (cs : List Char) : Option (IBMatch × List Char) :=
  match matchWeekday cs with
  | none => none
  | some r1 =>
      match plusGo isCommaWsC (read12Sep isDotC) r1 with
      | none => none
      | some (day, r2) =>
          match read12Sep isDotC r2 with
          | none => none
          | some (mo, r3) =>
              match plusGo isCommaWsC hourTail r3 with
              | none => none
              | some (h, mi, r4) =>
                  match venueTail r4 with
                  | none => none
                  | some (v, ci, r5) => some (⟨day, mo, h, mi, v, ci⟩, r5)

/-- The next `finditer` match: leftmost position wins. -/
def searchInfoBox : List Char → Option (IBMatch × List Char)
  | [] => none
  | c :: cs =>
      match matchInfoBoxAt (c :: cs) with
      | some r => some r
      | none => searchInfoBox cs

/-- The value `_parse_info_box` returns on success (`venue` and `city`
already `.strip()`ed). -/
structure InfoRes where
  date : PyDT
  venue : List Char
  city : List Char
deriving DecidableEq, Repr

/-- `now.replace(hour=0, minute=0, second=0, microsecond=0) -
timedelta(days=1)`, in microseconds. -/
def cutoffUs (now : PyDT) : Int :=
  toUs ⟨now.year, now.month, now.day, 0, 0, 0, 0⟩ - dayUs

/-- The match loop of `_parse_info_box`.  `datetime(year, month, day,
hour, minute)` failing its `ValueError` check is caught (`continue`);
`dt.replace(year=year + 1)` is *outside* the `try`, so its `ValueError`
(Feb 29 rolled into a non-leap year) escapes: `Except.error ()`.  A match
older than the cutoff is skipped; otherwise its data is returned. -/
def parseInfoGo (now : PyDT) : Nat → List Char → Except Unit (Option InfoRes)
  | 0, _ => Except.ok none
  | fuel + 1, cs =>
      match searchInfoBox cs with
      | none => Except.ok none
      | some (m, rest) =>
          match mkDatetime now.year m.month m.day m.hour m.minute with
          | none => parseInfoGo now fuel rest
          | some dt =>
              if toUs dt < toUs now - 60 * dayUs then
                match mkDatetime (now.year + 1) m.month m.day m.hour m.minute with
                | none => Except.error ()
                | some dt2 =>
                    if toUs dt2 < cutoffUs now then parseInfoGo now fuel rest
                    else Except.ok (some ⟨dt2, stripWs m.venue, stripWs m.city⟩)
              else
                if toUs dt < cutoffUs now then parseInfoGo now fuel rest
                else Except.ok (some ⟨dt, stripWs m.venue, stripWs m.city⟩)

/-- `_parse_info_box(text)` run at wall-clock time `now`. -/
def parse_info_box (text : String) (now : PyDT) : Except Unit (Option InfoRes) :=
  parseInfoGo now (text.data.length + 1) text.data

example : parse_info_box "Samstag, 7.3., 21 Uhr, Hechelei, Bielefeld;"
    ⟨2026, 3, 1, 12, 0, 0, 0⟩ =
    Except.ok (some ⟨⟨2026, 3, 7, 21, 0, 0, 0⟩, String.data "Hechelei",
      String.data "Bielefeld"⟩) := rfl

example : parse_info_box "Freitag, 6.3., 19.30 Uhr, Heristo Arena, Halle;"
    ⟨2026, 3, 1, 12, 0, 0, 0⟩ =
    Except.ok (some ⟨⟨2026, 3, 6, 19, 30, 0, 0⟩, String.data "Heristo Arena",
      String.data "Halle"⟩) := rfl

example : parse_info_box "kein Datum hier" ⟨2026, 3, 1, 12, 0, 0, 0⟩ =
    Except.ok none := rfl

theorem mkDatetime_some_eq {y mo d h mi : Nat} {dt : PyDT}
    (heq : mkDatetime y mo d h mi = some dt) :
    dt = ⟨y, mo, d, h, mi, 0, 0⟩ := by
  unfold mkDatetime at heq
  by_cases hv : validDT y mo d h mi = true
  · rw [if_pos hv] at heq
    exact (Option.some.inj heq).symm
  · rw [if_neg hv] at heq
    exact absurd heq (by simp)

/-- Every successful return of the `_parse_info_box` loop passed the cutoff
guard, and its year is the current year, or the next year when the
current-year reading was more than 60 days in the past. -/
theorem parseInfoGo_ok_some (now : PyDT) :
    ∀ (fuel : Nat) (cs : List Char) (r : InfoRes),
      parseInfoGo now fuel cs = Except.ok (some r) →
      ¬toUs r.date < cutoffUs now ∧
      (r.date.year = now.year ∧ ¬toUs r.date < toUs now - 60 * dayUs ∨
       r.date.year = now.year + 1 ∧
         toUs ⟨now.year, r.date.month, r.date.day, r.date.hour,
           r.date.minute, 0, 0⟩ < toUs now - 60 * dayUs)
  | 0, cs, r => by intro h; exact absurd h (by simp [parseInfoGo])
  | fuel + 1, cs, r => by
      intro h
      rw [parseInfoGo] at h
      cases hs : searchInfoBox cs with
      | none => simp only [hs] at h; exact absurd h (by simp)
      | some p =>
          obtain ⟨m, rest⟩ := p
          simp only [hs] at h
          cases hd : mkDatetime now.year m.month m.day m.hour m.minute with
          | none =>
              simp only [hd] at h
              exact parseInfoGo_ok_some now fuel rest r h
          | some dt =>
              simp only [hd] at h
              obtain rfl : dt = ⟨now.year, m.month, m.day, m.hour, m.minute, 0, 0⟩ :=
                mkDatetime_some_eq hd
              by_cases h60 : toUs ⟨now.year, m.month, m.day, m.hour, m.minute, 0, 0⟩ <
                  toUs now - 60 * dayUs
              · rw [if_pos h60] at h
                cases hd2 : mkDatetime (now.year + 1) m.month m.day m.hour m.minute with
                | none => simp only [hd2] at h; exact absurd h (by simp)
                | some dt2 =>
                    simp only [hd2] at h
                    obtain rfl : dt2 =
                        ⟨now.year + 1, m.month, m.day, m.hour, m.minute, 0, 0⟩ :=
                      mkDatetime_some_eq hd2
                    by_cases hc : toUs (⟨now.year + 1, m.month, m.day, m.hour,
                        m.minute, 0, 0⟩ : PyDT) < cutoffUs now
                    · rw [if_pos hc] at h
                      exact parseInfoGo_ok_some now fuel rest r h
                    · rw [if_neg hc] at h
                      simp only [Except.ok.injEq, Option.some.injEq] at h
                      subst h
                      exact ⟨hc, Or.inr ⟨rfl, h60⟩⟩
              · rw [if_neg h60] at h
                by_cases hc : toUs (⟨now.year, m.month, m.day, m.hour,
                    m.minute, 0, 0⟩ : PyDT) < cutoffUs now
                · rw [if_pos hc] at h
                  exact parseInfoGo_ok_some now fuel rest r h
                · rw [if_neg hc] at h
                  simp only [Except.ok.injEq, Option.some.injEq] at h
                  subst h
                  exact ⟨hc, Or.inl ⟨rfl, h60⟩⟩

/-- C10: the year-less info-box parser never emits a past event: whenever
`_parse_info_box` returns a result, its date is not earlier than midnight
of the previous calendar day (matched boxes with older dates are skipped,
so past-dated events are silently dropped). -/
theorem C10_info_box_never_past (text : String) (now : PyDT) (r : InfoRes)
    (h : parse_info_box text now = Except.ok (some r)) :
    ¬toUs r.date < cutoffUs now :=
  (parseInfoGo_ok_some now (text.data.length + 1) text.data r h).1

theorem C10_info_box_never_past_witness :
    parse_info_box "Samstag, 7.3., 21 Uhr, Hechelei, Bielefeld;"
      ⟨2026, 3, 1, 12, 0, 0, 0⟩ =
      Except.ok (some ⟨⟨2026, 3, 7, 21, 0, 0, 0⟩, String.data "Hechelei",
        String.data "Bielefeld"⟩) ∧
    ¬toUs (⟨⟨2026, 3, 7, 21, 0, 0, 0⟩, String.data "Hechelei",
        String.data "Bielefeld"⟩ : InfoRes).date <
      cutoffUs ⟨2026, 3, 1, 12, 0, 0, 0⟩ :=
  ⟨rfl, C10_info_box_never_past "Samstag, 7.3., 21 Uhr, Hechelei, Bielefeld;"
    ⟨2026, 3, 1, 12, 0, 0, 0⟩
    ⟨⟨2026, 3, 7, 21, 0, 0, 0⟩, String.data "Hechelei",
      String.data "Bielefeld"⟩ rfl⟩

/-- C4 (counterexample): at reference time 2026-03-01T12:00, the info box
day/month 1.1. does **not** resolve to 2027-01-01: 2026-01-01 is only 59
days in the past, so it is not rolled forward, and being older than the
cutoff it is skipped — `_parse_info_box` returns `None`. -/
theorem C4_year_roll_counterexample :
    parse_info_box "Donnerstag, 1.1., 20 Uhr, Hechelei, Bielefeld;"
      ⟨2026, 3, 1, 12, 0, 0, 0⟩ = Except.ok none := rfl

/-- C4 (amended): for dates parsed from the year-less info box, the year is
inferred as the current year, and only when the resulting date is more than
60 days in the past relative to the extraction instant is it rolled forward
to the next year (any returned result's year obeys this dichotomy).  With
reference 2026-03-01T12:00, day/month 4.3. resolves to 2026-03-04; day/month
1.1. is *not* rolled (59 days past) and, being before the cutoff, yields no
result; the roll to 2027-01-01 happens at references more than 60 days after
2026-01-01, e.g. 2026-06-01T12:00. -/
theorem C4_year_inference_amended :
    (∀ (text : String) (now : PyDT) (r : InfoRes),
       parse_info_box text now = Except.ok (some r) →
       r.date.year = now.year ∧ ¬toUs r.date < toUs now - 60 * dayUs ∨
       r.date.year = now.year + 1 ∧
         toUs ⟨now.year, r.date.month, r.date.day, r.date.hour,
           r.date.minute, 0, 0⟩ < toUs now - 60 * dayUs) ∧
    parse_info_box "Mittwoch, 4.3., 20 Uhr, Hechelei, Bielefeld;"
      ⟨2026, 3, 1, 12, 0, 0, 0⟩ =
      Except.ok (some ⟨⟨2026, 3, 4, 20, 0, 0, 0⟩, String.data "Hechelei",
        String.data "Bielefeld"⟩) ∧
    parse_info_box "Donnerstag, 1.1., 20 Uhr, Hechelei, Bielefeld;"
      ⟨2026, 3, 1, 12, 0, 0, 0⟩ = Except.ok none ∧
    parse_info_box "Donnerstag, 1.1., 20 Uhr, Hechelei, Bielefeld;"
      ⟨2026, 6, 1, 12, 0, 0, 0⟩ =
      Except.ok (some ⟨⟨2027, 1, 1, 20, 0, 0, 0⟩, String.data "Hechelei",
        String.data "Bielefeld"⟩) :=
  ⟨fun text now r h =>
    (parseInfoGo_ok_some now (text.data.length + 1) text.data r h).2,
   rfl, rfl, rfl⟩

/-! ### C8: JSON-LD extraction (`stereo.py` / `bunker_ulmenwall.py`)

`json.loads` is embedded as a strict recursive-descent parser `json_loads`
over a JSON value type (numerals restricted to integers, a string escape
`\c` read as `c`); crucially it is *strict about commas*: a comma must be
followed by another element/member, so a trailing comma before `\x7d` or
`]` is a parse error, exactly the behaviour the sanitization step exists
to work around.  The extractors are embedded down to the emission of
`(item, parsed startDate)` pairs: the fields copied verbatim into the
`Event` constructor play no role in block skipping. -/

inductive JVal where
  | null : JVal
  | bool : Bool → JVal
  | num : Int → JVal
  | str : List Char → JVal
  | arr : List JVal → JVal
  | obj : List (List Char × JVal) → JVal

/-- JSON whitespace. -/
def jsonWsC (c : Char) : Bool := c = ' ' || c = '\t' || c = '\n' || c = '\r'

/-- The body of a JSON string after the opening quote. -/
def jStringGo : List Char → List Char → Option (List Char × List Char)
  | _, [] => none
  | acc, c :: rest =>
      if c = '"' then some (acc.reverse, rest)
      else if c = '\\' then
        match rest with
        | [] => none
        | e :: r2 => jStringGo (e :: acc) r2
      else jStringGo (c :: acc) rest

/-- A case-sensitive literal. -/
def litPrefix : List Char → List Char → Option (List Char)
  | [], cs => some cs
  | _ :: _, [] => none
  | p :: ps, c :: cs => if c = p then litPrefix ps cs else none

def digitsVal (ds : List Char) : Nat := ds.foldl (fun a c => a * 10 + digitVal c) 0

mutual

def jValP : Nat → List Char → Option (JVal × List Char)
  | 0, _ => none
  | fuel + 1, cs =>
      match cs.dropWhile jsonWsC with
      | [] => none
      | c :: rest =>
          if c = '"' then
            match jStringGo [] rest with
            | some (s, r2) => some (JVal.str s, r2)
            | none => none
          else if c = '{' then
            match rest.dropWhile jsonWsC with
            | '}' :: r2 => some (JVal.obj [], r2)
            | _ =>
                match jObjP fuel rest with
                | some (kvs, r2) => some (JVal.obj kvs, r2)
                | none => none
          else if c = '[' then
            match rest.dropWhile jsonWsC with
            | ']' :: r2 => some (JVal.arr [], r2)
            | _ =>
                match jArrP fuel rest with
                | some (xs, r2) => some (JVal.arr xs, r2)
                | none => none
          else if c = 't' then
            (litPrefix (String.data "rue") rest).map (fun r2 => (JVal.bool true, r2))
          else if c = 'f' then
            (litPrefix (String.data "alse") rest).map (fun r2 => (JVal.bool false, r2))
          else if c = 'n' then
            (litPrefix (String.data "ull") rest).map (fun r2 => (JVal.null, r2))
          else if c = '-' then
            if (rest.takeWhile isDigitC).isEmpty then none
            else some (JVal.num (-(digitsVal (rest.takeWhile isDigitC) : Int)),
              rest.dropWhile isDigitC)
          else if isDigitC c then
            some (JVal.num (digitsVal (c :: rest.takeWhile isDigitC) : Int),
              rest.dropWhile isDigitC)
          else none

def jArrP : Nat → List Char → Option (List JVal × List Char)
  | 0, _ => none
  | fuel + 1, cs =>
      match jValP fuel cs with
      | none => none
      | some (v, r1) =>
          match r1.dropWhile jsonWsC with
          | ',' :: r2 =>
              match jArrP fuel r2 with
              | some (xs, r3) => some (v :: xs, r3)
              | none => none
          | ']' :: r2 => some ([v], r2)
          | _ => none

def jObjP : Nat → List Char → Option (List (List Char × JVal) × List Char)
  | 0, _ => none
  | fuel + 1, cs =>
      match cs.dropWhile jsonWsC with
      | '"' :: r1 =>
          match jStringGo [] r1 with
          | none => none
          | some (k, r2) =>
              match r2.dropWhile jsonWsC with
              | ':' :: r3 =>
                  match jValP fuel r3 with
                  | none => none
                  | some (v, r4) =>
                      match r4.dropWhile jsonWsC with
                      | ',' :: r5 =>
                          match jObjP fuel r5 with
                          | some (kvs, r6) => some ((k, v) :: kvs, r6)
                          | none => none
                      | '}' :: r5 => some ([(k, v)], r5)
                      | _ => none
              | _ => none
      | _ => none

end

/-- `json.loads`: one value, then only whitespace to the end. -/
def json_loads (s : String) : Option JVal :=
  match jValP (2 * s.data.length + 2) s.data with
  | some (v, rest) => if (rest.dropWhile jsonWsC).isEmpty then some v else none
  | none => none

example : json_loads "\x7b\"name\":\"X\"\x7d" =
    some (JVal.obj [(String.data "name", JVal.str (String.data "X"))]) := rfl

example : json_loads "\x7b\"name\":\"X\",\x7d" = none := rfl

example : json_loads "[1, 2, -3]" = some (JVal.arr [JVal.num 1, JVal.num 2,
    JVal.num (-3)]) := rfl

example : json_loads "[1, 2,]" = none := rfl

/-- `\s*[}\]]` after a comma: the candidate tail of one match of
`re.sub(r",\s*([}\]])", r"\1", raw)` (`\s` disjoint from the brackets, so
the star is deterministic). -/
def wsThenBracket (cs : List Char) : Option (Char × List Char) :=
  match cs.dropWhile isSpaceC with
  | c :: r => if c = '}' || c = ']' then some (c, r) else none
  | [] => none

/-- The left-to-right, non-overlapping scan of `re.sub`: a match of
`,\s*([}\]])` is replaced by its bracket and the scan resumes after it. -/
def sanitizeGo : Nat → List Char → List Char
  | 0, cs => cs
  | fuel + 1, cs =>
      match cs with
      | [] => []
      | c :: rest =>
          if c = ',' then
            match wsThenBracket rest with
            | some (b, r2) => b :: sanitizeGo fuel r2
            | none => c :: sanitizeGo fuel rest
          else c :: sanitizeGo fuel rest

/-- `re.sub(r",\s*([}\]])", r"\1", raw)` — the sanitization `stereo.py`
performs before `json.loads` (and `bunker_ulmenwall.py` does not). -/
def sanitize_trailing (cs : List Char) : List Char := sanitizeGo cs.length cs

example : String.mk (sanitize_trailing (String.data "\x7b\"name\":\"X\",\x7d")) =
    "\x7b\"name\":\"X\"\x7d" := rfl

example : String.mk (sanitize_trailing (String.data "[1, 2, \x0a ]")) = "[1, 2]" := rfl

/-- `item.get(key)` on a parsed JSON object (`json.loads` keeps the last
occurrence of a duplicated key). -/
def jGet (kvs : List (List Char × JVal)) (k : List Char) : Option JVal :=
  (kvs.reverse.find? (fun p => decide (p.1 = k))).map (fun p => p.2)

/-- `item.get(key, default)`. -/
def jGetD (kvs : List (List Char × JVal)) (k : List Char) (d : JVal) : JVal :=
  (jGet kvs k).getD d

/-- `item.get("@type") in (t₁, t₂, t₃)`: only a string value can equal one
of the names. -/
def typeMatches (types : List (List Char)) (v : Option JVal) : Bool :=
  match v with
  | some (JVal.str s) => types.any (fun t => decide (s = t))
  | _ => false

/-- `parse_german_date` applied to the raw JSON value of `startDate`:
`if not date_str: return None` lets every falsy value through as `None`;
a truthy non-string then raises `AttributeError` at `.strip()` (caught by
the block's `except`). -/
def parse_german_date_j : JVal → Except Unit (Option PyDT)
  | JVal.str s => Except.ok (parse_german_date s)
  | JVal.null => Except.ok none
  | JVal.bool b => if b then Except.error () else Except.ok none
  | JVal.num n => if n = 0 then Except.ok none else Except.error ()
  | JVal.arr xs => if xs.isEmpty then Except.ok none else Except.error ()
  | JVal.obj kvs => if kvs.isEmpty then Except.ok none else Except.error ()

/-- One loop iteration over a JSON-LD item: `ok none` = item not emitted,
`ok (some _)` = an event appended, `error` = an exception (`.get` on a
non-dict, `.strip()` on a truthy non-string) that aborts the rest of the
block. -/
def processItem (types : List (List Char)) : JVal → Except Unit (Option (JVal × PyDT))
  | JVal.obj kvs =>
      if typeMatches types (jGet kvs (String.data "@type")) then
        match parse_german_date_j (jGetD kvs (String.data "startDate") (JVal.str [])) with
        | Except.error () => Except.error ()
        | Except.ok none => Except.ok none
        | Except.ok (some dt) => Except.ok (some (JVal.obj kvs, dt))
      else Except.ok none
  | _ => Except.error ()

/-- The `for item in items` loop: an exception keeps the events already
appended and skips the rest of the block. -/
def processItems (types : List (List Char)) : List JVal → List (JVal × PyDT)
  | [] => []
  | item :: rest =>
      match processItem types item with
      | Except.error () => []
      | Except.ok none => processItems types rest
      | Except.ok (some ev) => ev :: processItems types rest

/-- `items = data if isinstance(data, list) else [data]`. -/
def jItems : JVal → List JVal
  | JVal.arr xs => xs
  | v => [v]

def stereoTypes : List (List Char) :=
  [String.data "Event", String.data "MusicEvent", String.data "DanceEvent"]

def bunkerTypes : List (List Char) :=
  [String.data "Event", String.data "MusicEvent", String.data "TheaterEvent"]

/-- One `script` block of `stereo.py`'s `_extract_from_jsonld`: sanitize,
parse, process; a parse failure skips the block. -/
def stereoBlock (raw : String) : List (JVal × PyDT) :=
  match json_loads (String.mk (sanitize_trailing raw.data)) with
  | none => []
  | some data => processItems stereoTypes (jItems data)

/-- One `script` block of `bunker_ulmenwall.py`'s `_extract_from_jsonld`:
parse **without sanitization**, process; a parse failure skips the block. -/
def bunkerBlock (raw : String) : List (JVal × PyDT) :=
  match json_loads raw with
  | none => []
  | some data => processItems bunkerTypes (jItems data)

def stereo_extract_from_jsonld (blocks : List String) : List (JVal × PyDT) :=
  (blocks.map stereoBlock).flatten

def bunker_extract_from_jsonld (blocks : List String) : List (JVal × PyDT) :=
  (blocks.map bunkerBlock).flatten

/-- C8 (counterexample): `bunker_ulmenwall.py`'s `_extract_from_jsonld`
does **not** strip trailing commas: the block
`\x7b"@type":"Event","name":"X","startDate":"2026-05-01",\x7d` fails
`json.loads` raw (trailing comma) and is skipped there, while `stereo.py`'s
sanitizing extractor parses it and emits its event. -/
theorem C8_trailing_comma_counterexample :
    json_loads "\x7b\"name\":\"X\",\x7d" = none ∧
    bunker_extract_from_jsonld
      ["\x7b\"@type\":\"Event\",\"name\":\"X\",\"startDate\":\"2026-05-01\",\x7d"] = [] ∧
    stereo_extract_from_jsonld
      ["\x7b\"@type\":\"Event\",\"name\":\"X\",\"startDate\":\"2026-05-01\",\x7d"] =
      [(JVal.obj [(String.data "@type", JVal.str (String.data "Event")),
        (String.data "name", JVal.str (String.data "X")),
        (String.data "startDate", JVal.str (String.data "2026-05-01"))],
        ⟨2026, 5, 1, 0, 0, 0, 0⟩)] :=
  ⟨rfl, rfl, rfl⟩

/-- C8 (amended): in `stereo.py`'s JSON-LD extraction, trailing commas
before a closing bracket are stripped before parsing — `\x7b"name":"X",\x7d`
sanitizes to `\x7b"name":"X"\x7d` and then parses — and in **both**
extractors a block whose parse fails (for `bunker_ulmenwall.py`: the raw,
unsanitized block) is skipped on its own, the surrounding blocks being
processed exactly as if it were absent; `bunker_ulmenwall.py` performs no
sanitization, so a trailing-comma block is dropped there. -/
theorem C8_jsonld_tolerance_amended :
    String.mk (sanitize_trailing (String.data "\x7b\"name\":\"X\",\x7d")) =
      "\x7b\"name\":\"X\"\x7d" ∧
    json_loads (String.mk (sanitize_trailing
      (String.data "\x7b\"name\":\"X\",\x7d"))) =
      some (JVal.obj [(String.data "name", JVal.str (String.data "X"))]) ∧
    (∀ (bs1 bs2 : List String) (b : String),
       json_loads (String.mk (sanitize_trailing b.data)) = none →
       stereo_extract_from_jsonld (bs1 ++ b :: bs2) =
         stereo_extract_from_jsonld bs1 ++ stereo_extract_from_jsonld bs2) ∧
    (∀ (bs1 bs2 : List String) (b : String),
       json_loads b = none →
       bunker_extract_from_jsonld (bs1 ++ b :: bs2) =
         bunker_extract_from_jsonld bs1 ++ bunker_extract_from_jsonld bs2) ∧
    stereo_extract_from_jsonld
      ["\x7b\"@type\":\"MusicEvent\",\"name\":\"X\",\"startDate\":\"2026-05-01\",\x7d"] =
      [(JVal.obj [(String.data "@type", JVal.str (String.data "MusicEvent")),
        (String.data "name", JVal.str (String.data "X")),
        (String.data "startDate", JVal.str (String.data "2026-05-01"))],
        ⟨2026, 5, 1, 0, 0, 0, 0⟩)] ∧
    bunker_extract_from_jsonld
      ["\x7b\"@type\":\"MusicEvent\",\"name\":\"X\",\"startDate\":\"2026-05-01\",\x7d"] =
      [] :=
  ⟨rfl, rfl,
   fun bs1 bs2 b h => by
     simp [stereo_extract_from_jsonld, stereoBlock, h],
   fun bs1 bs2 b h => by
     simp [bunker_extract_from_jsonld, bunkerBlock, h],
   rfl, rfl⟩
